import Mathlib

set_option maxHeartbeats 1000000

namespace TMDB

/-- JSON-like cell values as they live in a pandas DataFrame cell.  `null`
stands for both JSON null and pandas NaN/NaT; `posInf`/`negInf` model the
IEEE infinities that pandas float division can produce.  Numbers are exact
rationals (the pipeline only scales and divides; no claim depends on
float rounding). -/
inductive JValue where
  | null
  | num (q : ℚ)
  | str (s : String)
  | bool (b : Bool)
  | obj (fields : List (String × JValue))
  | arr (elems : List JValue)
  | posInf
  | negInf

/-- A raw record / DataFrame row: an association list from column name to
cell value.  A key that is absent reads as `JValue.null` (pandas NaN). -/
abbrev Row := List (String × JValue)

/-- A pandas DataFrame: an explicit ordered column list plus rows.  The row
index is implicit: the position in `rows` (dense, 0-based). -/
structure Table where
  cols : List String
  rows : List Row

/-- First binding of a key in an association list. -/
def lookupJ (c : String) : List (String × JValue) → Option JValue
  | [] => none
  | (k, v) :: r => if k = c then some v else lookupJ c r

/-- Read a cell: first binding of the key, NaN (`null`) when absent. -/
def cellOf (r : Row) (c : String) : JValue :=
  (lookupJ c r).getD .null

/-- Write a cell: replace an existing binding in place, append otherwise
(pandas column assignment). -/
def setCell (r : Row) (c : String) (v : JValue) : Row :=
  if (lookupJ c r).isSome then
    r.map (fun p => if p.1 = c then (c, v) else p)
  else
    r ++ [(c, v)]

/-- pandas value equality for the scalar cells that ever serve as keys or
comparands in this pipeline (`drop_duplicates(subset=['id'])` runs after
`id` has been coerced numeric, `merge(on='id')` compares scalars).
Container values never compare equal. -/
def scalarEq : JValue → JValue → Bool
  | .null, .null => true
  | .num a, .num b => a = b
  | .str a, .str b => a = b
  | .bool a, .bool b => a = b
  | .posInf, .posInf => true
  | .negInf, .negInf => true
  | _, _ => false

/-- Effectful left fold over a list (the `for` loops of the scripts). -/
def foldME {β α : Type} (f : β → α → Except String β) (b : β) : List α → Except String β
  | [] => .ok b
  | a :: t => do
      let b2 ← f b a
      foldME f b2 t

/-- Effectful map over a list (a pandas `Series.apply` whose function can
raise). -/
def mapME {α β : Type} (f : α → Except String β) : List α → Except String (List β)
  | [] => .ok []
  | a :: t => do
      let b ← f a
      let tb ← mapME f t
      return b :: tb

/-- `df.drop(col, axis=1)`: raises `KeyError` when the column is absent. -/
def dropColumnE (t : Table) (c : String) : Except String Table :=
  if t.cols.contains c then
    .ok ⟨t.cols.erase c, t.rows.map (fun r => r.filter (fun p => p.1 != c))⟩
  else
    .error ("KeyError: " ++ c)

/-- Source lines 28–33: the five irrelevant columns. -/
def colsToDrop : List String := ["adult", "imdb_id", "original_title", "video", "homepage"]

/-- The pruning loop of source lines 29–33, including its literal guard
`if col in cols_to_drop` (which is always true, so the drop is in fact
unconditional and raises when the column is absent). -/
def dropStage (t : Table) : Except String Table :=
  foldME
    (fun acc col => if colsToDrop.contains col then dropColumnE acc col else .ok acc)
    t colsToDrop

/-- Source lines 44–45: `x['name'] if isinstance(x, dict) else None`. -/
def flattenCollection : JValue → Except String JValue
  | .obj fs =>
      match lookupJ "name" fs with
      | some v => .ok v
      | none => .error "KeyError: name"
  | _ => .ok .null

/-- `item['name']` for one element of a list-valued nested field; the
pipe-join then needs a string. -/
def elemName : JValue → Except String String
  | .obj fs =>
      match lookupJ "name" fs with
      | some (.str s) => .ok s
      | some _ => .error "TypeError: sequence item is not str"
      | none => .error "KeyError: name"
  | _ => .error "TypeError: element is not subscriptable"

/-- Source lines 48–49: pipe-join of the element names when the cell is a
list, else None. -/
def flattenListCell : JValue → Except String JValue
  | .arr xs => do
      let ns ← mapME elemName xs
      .ok (.str (String.intercalate "|" ns))
  | _ => .ok .null

/-- Apply a pure cell function down one column; `KeyError` when the column
is not in the frame (pandas `df[c]` on a missing label). -/
def mapColumn (t : Table) (c : String) (f : JValue → JValue) : Except String Table :=
  if t.cols.contains c then
    .ok ⟨t.cols, t.rows.map (fun r => setCell r c (f (cellOf r c)))⟩
  else
    .error ("KeyError: " ++ c)

/-- Apply a fallible cell function down one column. -/
def mapColumnE (t : Table) (c : String) (f : JValue → Except String JValue) :
    Except String Table := do
  if t.cols.contains c then
    let rows ← mapME (fun r => do
      let v ← f (cellOf r c)
      return setCell r c v) t.rows
    return ⟨t.cols, rows⟩
  else
    .error ("KeyError: " ++ c)

/-- Source lines 37–38. -/
def extractedColumns : List String :=
  ["belongs_to_collection", "genres", "spoken_languages",
   "production_countries", "production_companies", "credits"]

/-- Which flattener the loop applies to which column. -/
def flattenCellFn (c : String) : JValue → Except String JValue :=
  if c = "belongs_to_collection" then flattenCollection else flattenListCell

/-- Source lines 41–49: the flattening loop. -/
def flattenStage (t : Table) : Except String Table :=
  foldME (fun acc col => mapColumnE acc col (flattenCellFn col)) t extractedColumns

/-- `pd.to_numeric(errors='coerce')` on the value shapes the claims
exercise: numbers stay, booleans become 0/1, everything else (null,
containers, non-numeric strings) coerces to NaN.  Parsing of numeric
strings is not modelled; no claim involves them. -/
def toNumeric : JValue → JValue
  | .num q => .num q
  | .bool b => .num (if b then 1 else 0)
  | _ => .null

/-- Source lines 54–62. -/
def numericCols : List String :=
  ["budget", "id", "popularity", "revenue", "runtime", "vote_average", "vote_count"]

/-- Source lines 67–69. -/
def numericStage (t : Table) : Except String Table :=
  foldME (fun acc col => mapColumn acc col toNumeric) t numericCols

/-- `pd.to_datetime(errors='coerce')`: date strings are kept abstract (a
string represents its parsed date); non-strings coerce to NaT.  Which
strings parse is irrelevant to every claim. -/
def toDatetime : JValue → JValue
  | .str s => .str s
  | _ => .null

/-- Source lines 72–73. -/
def dateStage (t : Table) : Except String Table :=
  mapColumn t "release_date" toDatetime

/-- `replace(0, np.nan)` on an already-numeric column. -/
def zeroToNull : JValue → JValue
  | .num q => if q = 0 then .null else .num q
  | v => v

/-- Source lines 85–87. -/
def zeroStage (t : Table) : Except String Table :=
  foldME (fun acc col => mapColumn acc col zeroToNull) t ["budget", "revenue", "runtime"]

/-- Division of a numeric column by 1,000,000 (NaN stays NaN). -/
def toMillions : JValue → JValue
  | .num q => .num (q / 1000000)
  | _ => .null

/-- Source lines 90–92. -/
def unitStage (t : Table) : Except String Table := do
  let t2 ← mapColumn t "budget" toMillions
  mapColumn t2 "revenue" toMillions

/-- Source line 95: `df.loc[df['vote_count'] == 0, 'vote_average'] = np.nan`. -/
def voteStage (t : Table) : Except String Table :=
  if t.cols.contains "vote_count" && t.cols.contains "vote_average" then
    .ok ⟨t.cols, t.rows.map (fun r =>
      if scalarEq (cellOf r "vote_count") (.num 0) then setCell r "vote_average" .null else r)⟩
  else
    .error "KeyError: vote_count"

/-- Source line 98. -/
def textPlaceholders : List String := ["", "No Data", "N/A", "Unknown"]

/-- `replace(text_placeholders, np.nan)` cellwise. -/
def cleanPlaceholder : JValue → JValue
  | .str s => if textPlaceholders.contains s then .null else .str s
  | v => v

/-- Source line 101 on `overview` and `tagline`. -/
def textStage (t : Table) : Except String Table := do
  let t2 ← mapColumn t "overview" cleanPlaceholder
  mapColumn t2 "tagline" cleanPlaceholder

/-- Source line 113: `dropna(subset=['id','title'])`. -/
def idTitleStage (t : Table) : Except String Table :=
  if t.cols.contains "id" && t.cols.contains "title" then
    .ok ⟨t.cols, t.rows.filter (fun r =>
      !(scalarEq (cellOf r "id") .null) && !(scalarEq (cellOf r "title") .null))⟩
  else
    .error "KeyError: id/title"

/-- Keep-first deduplication by a key, accumulating the keys seen so far
(pandas treats NaN keys as duplicates of each other, as `scalarEq` does). -/
def dedupByKey (key : Row → JValue) : List JValue → List Row → List Row
  | _, [] => []
  | seen, r :: rs =>
      if seen.any (fun v => scalarEq v (key r)) then dedupByKey key seen rs
      else r :: dedupByKey key (key r :: seen) rs

/-- Source line 116: `drop_duplicates(subset=['id'])` (keep='first'). -/
def dedupStage (t : Table) : Except String Table :=
  if t.cols.contains "id" then
    .ok ⟨t.cols, dedupByKey (fun r => cellOf r "id") [] t.rows⟩
  else
    .error "KeyError: id"

/-- Non-null cell count of a row across the frame's columns. -/
def countNonNull (cols : List String) (r : Row) : Nat :=
  (cols.filter (fun c => !(scalarEq (cellOf r c) .null))).length

/-- Source line 121: `dropna(thresh=10)`. -/
def threshStage (t : Table) : Except String Table :=
  .ok ⟨t.cols, t.rows.filter (fun r => decide (10 ≤ countNonNull t.cols r))⟩

/-- Source lines 126–129: keep `status == 'Released'`, then
`drop(columns=['status'])`. -/
def statusStage (t : Table) : Except String Table :=
  if t.cols.contains "status" then
    dropColumnE
      ⟨t.cols, t.rows.filter (fun r => scalarEq (cellOf r "status") (.str "Released"))⟩
      "status"
  else
    .error "KeyError: status"

/-- Source lines 143–148: the rename map. -/
def renameKey (c : String) : String :=
  if c = "budget" then "budget_musd" else if c = "revenue" then "revenue_musd" else c

/-- `df.rename(columns=rename_map)`. -/
def renameStage (t : Table) : Table :=
  ⟨t.cols.map renameKey, t.rows.map (fun r => r.map (fun p => (renameKey p.1, p.2)))⟩

/-- Source lines 151–158: the fixed target column order. -/
def targetOrder : List String :=
  ["id", "title", "tagline", "release_date", "genres", "belongs_to_collection",
   "original_language", "budget_musd", "revenue_musd", "production_companies",
   "production_countries", "vote_count", "vote_average", "popularity", "runtime",
   "overview", "spoken_languages", "poster_path",
   "cast", "cast_size", "director", "crew_size", "credits"]

/-- One reindexed row: the target columns in order; a column missing from
the working frame is created as NaN. -/
def reindexRow (cols : List String) (r : Row) : Row :=
  targetOrder.map (fun c => (c, if cols.contains c then cellOf r c else .null))

/-- Source lines 164–167: `reindex(columns=target_order)` followed by
`reset_index(drop=True)` (the latter is the identity on the positional row
list).  Duplicate working labels — possible only if the raw input already
carried e.g. a `budget_musd` column colliding after the rename — make
pandas `reindex` raise. -/
def reindexStage (t : Table) : Except String Table :=
  if t.cols.Nodup then
    .ok ⟨targetOrder, t.rows.map (reindexRow t.cols)⟩
  else
    .error "ValueError: cannot reindex on an axis with duplicate labels"

/-- Column set of `pd.read_json` over a list of records: the union of the
record keys in first-appearance order. -/
def addKeys (acc : List String) (r : Row) : List String :=
  r.foldl (fun a p => if a.contains p.1 then a else a ++ [p.1]) acc

/-- Columns of the raw frame. -/
def mkCols (rs : List Row) : List String := rs.foldl addKeys []

/-- The raw frame itself. -/
def mkTable (rs : List Row) : Table := ⟨mkCols rs, rs⟩

/-- The per-cell conversion stages (source lines 27–101): prune, flatten,
coerce numerics and dates, null out zeros and placeholders, scale to
millions, null zero-vote ratings. -/
def convertStages (rs : List Row) : Except String Table := do
  let t1 ← dropStage (mkTable rs)
  let t2 ← flattenStage t1
  let t3 ← numericStage t2
  let t4 ← dateStage t3
  let t5 ← zeroStage t4
  let t6 ← unitStage t5
  let t7 ← voteStage t6
  textStage t7

/-- Everything the Transformer does before the final schema enforcement
(source lines 27–148).  The filter order is the source's: null id/title,
dedup, 10-non-null threshold, status. -/
def beforeReindex (rs : List Row) : Except String Table := do
  let u ← convertStages rs
  let t1 ← idTitleStage u
  let t2 ← dedupStage t1
  let t3 ← threshStage t2
  let t4 ← statusStage t3
  return renameStage t4

/-- The Transformer: a stage-by-stage transliteration of
`src/transformation/process.py` (I/O and prints elided; the prints only
read columns that the retained stages already require). -/
def transform (rs : List Row) : Except String Table := do
  let t ← beforeReindex rs
  reindexStage t

/-- Modelled from the spec's words for claim C1: the same Transformer but
with the quality filters in the order the claim states — null id/title,
dedup, status filter and status-column drop, and only then the 10-non-null
threshold (which therefore cannot count a status column). -/
def transformClaimOrder (rs : List Row) : Except String Table := do
  let u ← convertStages rs
  let t1 ← idTitleStage u
  let t2 ← dedupStage t1
  let t3 ← statusStage t2
  let t4 ← threshStage t3
  reindexStage (renameStage t4)

/-- Keep-first deduplication by `id`, written as a left fold over the rows
(spec-side formulation for the amended claim C1). -/
def keepFirstById (rows : List Row) : List Row :=
  rows.foldl (fun acc r =>
    if acc.any (fun r2 => scalarEq (cellOf r2 "id") (cellOf r "id")) then acc
    else acc ++ [r]) []

/-- Modelled from the amended claim C1: after the conversion stages, the
quality filtering (1) drops rows with null `id` or `title`, (2) keeps the
first occurrence per `id`, (3) keeps rows with at least 10 non-null values
counted across ALL columns present at that point — the `status` column
included — and (4) only then keeps rows with `status == "Released"` and
drops the `status` column; then rename and schema enforcement follow. -/
def transformAmendedSpec (rs : List Row) : Except String Table := do
  let u ← convertStages rs
  if u.cols.contains "id" && u.cols.contains "title" && u.cols.contains "status" then
    let survivors :=
      ((keepFirstById (u.rows.filter (fun r =>
          !(scalarEq (cellOf r "id") .null) && !(scalarEq (cellOf r "title") .null)))).filter
        (fun r => decide (10 ≤ countNonNull u.cols r))).filter
        (fun r => scalarEq (cellOf r "status") (.str "Released"))
    reindexStage (renameStage ⟨u.cols.erase "status",
      survivors.map (fun r => r.filter (fun p => p.1 != "status"))⟩)
  else
    .error "KeyError"

/-- `Series.notna` as a boolean. -/
def notnaB (v : JValue) : Bool := !(scalarEq v .null)

/-- Mean of the non-null numeric values of a column over a row group
(pandas `mean`, skipna). -/
def meanOf (rows : List Row) (c : String) : JValue :=
  let vals := rows.filterMap (fun r => match cellOf r c with | .num q => some q | _ => none)
  match vals with
  | [] => .null
  | _ => .num (vals.sum / (vals.length : ℚ))

/-- Insert into a sorted list of rationals. -/
def insertSorted (q : ℚ) : List ℚ → List ℚ
  | [] => [q]
  | x :: xs => if q ≤ x then q :: x :: xs else x :: insertSorted q xs

/-- Insertion sort on rationals. -/
def sortQ (l : List ℚ) : List ℚ := l.foldr insertSorted []

/-- Median of the non-null numeric values of a column over a row group
(pandas `median`, skipna). -/
def medianOf (rows : List Row) (c : String) : JValue :=
  let vals := sortQ (rows.filterMap (fun r =>
    match cellOf r c with | .num q => some q | _ => none))
  match vals.length with
  | 0 => .null
  | Nat.succ _ =>
      if vals.length % 2 = 1 then .num (vals.getD (vals.length / 2) 0)
      else .num ((vals.getD (vals.length / 2 - 1) 0 + vals.getD (vals.length / 2) 0) / 2)

/-- pandas `count` aggregation of `title` (non-null count). -/
def countTitles (rows : List Row) : JValue :=
  .num (((rows.filter (fun r => notnaB (cellOf r "title"))).length : ℚ))

/-- The aggregation dict of `analysis.py` lines 240–247. -/
def aggRow (rows : List Row) : Row :=
  [("revenue_musd", meanOf rows "revenue_musd"), ("roi", medianOf rows "roi"),
   ("budget_musd", meanOf rows "budget_musd"), ("popularity", meanOf rows "popularity"),
   ("vote_average", meanOf rows "vote_average"), ("movie_count", countTitles rows)]

/-- The columns `franchise_stats` reads (`belongs_to_collection` for the
flag, the aggregation dict keys for `agg`). -/
def franchiseNeeded : List String :=
  ["belongs_to_collection", "revenue_musd", "roi", "budget_musd", "popularity",
   "vote_average", "title"]

/-- `analysis.py` lines 237–252: derive `is_franchise`, group by it (False
group first, only groups actually present), aggregate, then the hardcoded
relabel `franchise_stats.index = ['Standalone', 'Franchise']`, which
raises a pandas `ValueError` unless exactly two groups are present. -/
def franchiseStats (t : Table) : Except String (List (String × Row)) :=
  if franchiseNeeded.all (fun c => t.cols.contains c) then
    let isF := fun r => notnaB (cellOf r "belongs_to_collection")
    let standaloneRows := t.rows.filter (fun r => !(isF r))
    let franchiseRows := t.rows.filter isF
    let groups := (if standaloneRows.isEmpty then [] else [aggRow standaloneRows]) ++
                  (if franchiseRows.isEmpty then [] else [aggRow franchiseRows])
    match groups with
    | [g1, g2] => .ok [("Standalone", g1), ("Franchise", g2)]
    | _ => .error "ValueError: Length mismatch"
  else
    .error "KeyError"

/-- Elementwise subtraction of two numeric cells (NaN propagates). -/
def jsub : JValue → JValue → JValue
  | .num a, .num b => .num (a - b)
  | _, _ => .null

/-- Elementwise float division of two numeric cells: NaN propagates,
division by zero gives ±inf (or NaN for 0/0), exactly as pandas does. -/
def jdiv : JValue → JValue → JValue
  | .num a, .num b =>
      if b = 0 then (if a = 0 then .null else if 0 < a then .posInf else .negInf)
      else .num (a / b)
  | _, _ => .null

/-- Append a column label if new (pandas column assignment). -/
def addColIfAbsent (cols : List String) (c : String) : List String :=
  if cols.contains c then cols else cols ++ [c]

/-- `analysis.py` lines 30–33 (re-run at 232–233): the derived KPI columns
`profit_musd = revenue_musd - budget_musd` and
`roi = revenue_musd / budget_musd`. -/
def addKPIs (t : Table) : Except String Table :=
  if t.cols.contains "revenue_musd" && t.cols.contains "budget_musd" then
    .ok ⟨addColIfAbsent (addColIfAbsent t.cols "profit_musd") "roi",
      t.rows.map (fun r =>
        let r1 := setCell r "profit_musd"
          (jsub (cellOf r "revenue_musd") (cellOf r "budget_musd"))
        setCell r1 "roi" (jdiv (cellOf r1 "revenue_musd") (cellOf r1 "budget_musd")))⟩
  else
    .error "KeyError: revenue_musd/budget_musd"

/-- `analysis.py` lines 171–175: the second `get_cast` — pipe-joined names
of the first five `credits.cast` entries, `""` when `credits` is not a
dict or has no `cast` key. -/
def getCastE : JValue → Except String JValue
  | .obj fs =>
      match lookupJ "cast" fs with
      | some (.arr xs) => do
          let ns ← mapME elemName (xs.take 5)
          return .str (String.intercalate "|" ns)
      | some _ => .error "TypeError: cast is not a list"
      | none => .ok (.str "")
  | _ => .ok (.str "")

/-- One crew entry must be a dict for `x.get('job')`. -/
def crewFields : JValue → Except String (List (String × JValue))
  | .obj gs => .ok gs
  | _ => .error "AttributeError: get"

/-- `analysis.py` lines 178–183: the second `get_director` — pipe-joined
names of every `credits.crew` entry whose `job` equals `"Director"`, `""`
when `credits` is not a dict or has no `crew` key. -/
def getDirectorE : JValue → Except String JValue
  | .obj fs =>
      match lookupJ "crew" fs with
      | some (.arr xs) => do
          let entries ← mapME crewFields xs
          let sel := entries.filter (fun gs =>
            scalarEq ((lookupJ "job" gs).getD .null) (.str "Director"))
          let ns ← mapME (fun gs => elemName (.obj gs)) sel
          return .str (String.intercalate "|" ns)
      | some _ => .error "TypeError: crew is not a list"
      | none => .ok (.str "")
  | _ => .ok (.str "")

/-- `pd.DataFrame(raw)[['id','credits']]` (`analysis.py` line 163):
KeyError when either column is absent from the raw frame. -/
def projectCredits (rs : List Row) : Except String Table :=
  if (mkCols rs).contains "id" && (mkCols rs).contains "credits" then
    .ok ⟨["id", "credits"],
      rs.map (fun r => [("id", cellOf r "id"), ("credits", cellOf r "credits")])⟩
  else
    .error "KeyError: id/credits"

/-- `pd.merge(left, right, on='id', how='left')` where `right` carries only
`id` and `credits`: every left row is kept; it is repeated once per
matching right row (NaN keys never match), with the matched `credits`
value attached, or a null `credits` when nothing matches. -/
def mergeLeft (left : Table) (right : Table) : Table :=
  ⟨left.cols ++ ["credits"],
    (left.rows.map (fun l =>
      let ms := right.rows.filter (fun r =>
        notnaB (cellOf l "id") && scalarEq (cellOf r "id") (cellOf l "id"))
      match ms with
      | [] => [setCell l "credits" .null]
      | _ => ms.map (fun r => setCell l "credits" (cellOf r "credits")))).flatten⟩

/-- `analysis.py` lines 151–190: credit enrichment — drop any existing
`credits` column from the clean table, re-join the raw records on `id`
(left join) and populate `cast`/`director` with the second
`get_cast`/`get_director`. -/
def enrich (clean : Table) (rs : List Row) : Except String Table := do
  let c ← if clean.cols.contains "credits" then dropColumnE clean "credits" else .ok clean
  let creds ← projectCredits rs
  let m := mergeLeft c creds
  let rows1 ← mapME (fun r => do
    let v ← getCastE (cellOf r "credits")
    return setCell r "cast" v) m.rows
  let rows2 ← mapME (fun r => do
    let v ← getDirectorE (cellOf r "credits")
    return setCell r "director" v) rows1
  return ⟨addColIfAbsent (addColIfAbsent m.cols "cast") "director", rows2⟩

/-- Spec-side reading of an element's `name` (total: blank when malformed,
which well-formedness excludes). -/
def elemNameD : JValue → String
  | .obj gs => match lookupJ "name" gs with | some (.str s) => s | _ => ""
  | _ => ""

/-- Modelled from claim C7's words: `belongs_to_collection` becomes its
`name` value when it is a keyed structure, null otherwise. -/
def specFlattenCollection : JValue → JValue
  | .obj fs => (lookupJ "name" fs).getD .null
  | _ => .null

/-- Modelled from claim C7's words: a list-valued nested field becomes the
pipe-joined sequence of its elements' names in source order, null when
absent or not a list. -/
def specFlattenList : JValue → JValue
  | .arr xs => .str (String.intercalate "|" (xs.map elemNameD))
  | _ => .null

/-- Modelled from claim C7's words: the whole flattening stage as one
per-row function over the six extracted columns. -/
def specFlattenRow (r : Row) : Row :=
  extractedColumns.foldl (fun r c =>
    setCell r c (if c = "belongs_to_collection" then specFlattenCollection (cellOf r c)
                 else specFlattenList (cellOf r c))) r

/-- The per-column spec-side flattener (the body of `specFlattenRow`). -/
def specCellFn (c : String) (v : JValue) : JValue :=
  if c = "belongs_to_collection" then specFlattenCollection v else specFlattenList v

/-- Modelled from claim C9's words: pipe-joined names of the first five
`credits.cast` entries, `""` when credits is missing or has no cast. -/
def specCast : JValue → String
  | .obj fs =>
      match lookupJ "cast" fs with
      | some (.arr xs) => String.intercalate "|" ((xs.take 5).map elemNameD)
      | _ => ""
  | _ => ""

/-- Is a crew entry's `job` exactly `"Director"`? -/
def isDirector : JValue → Bool
  | .obj gs => scalarEq ((lookupJ "job" gs).getD .null) (.str "Director")
  | _ => false

/-- Modelled from claim C9's words: pipe-joined names of every
`credits.crew` entry whose `job` equals exactly `"Director"`, in source
order; `""` when none or credits missing. -/
def specDirector : JValue → String
  | .obj fs =>
      match lookupJ "crew" fs with
      | some (.arr xs) => String.intercalate "|" ((xs.filter isDirector).map elemNameD)
      | _ => ""
  | _ => ""

/-- The field list of a keyed structure (empty for anything else). -/
def objFields : JValue → List (String × JValue)
  | .obj gs => gs
  | _ => []

/-- A well-formed nested element: a keyed structure with a string `name`
(the shape §3 of the spec gives to genre/company/country/cast/crew
entries). -/
def WFNamed (x : JValue) : Prop :=
  ∃ gs s, x = .obj gs ∧ lookupJ "name" gs = some (.str s)

/-- A well-formed collection cell: if it is a keyed structure it has a
`name` entry. -/
def WFCollection (v : JValue) : Prop :=
  ∀ fs, v = .obj fs → (lookupJ "name" fs).isSome

/-- A well-formed list cell: if it is a list, every element is named. -/
def WFListCell (v : JValue) : Prop :=
  ∀ xs, v = .arr xs → ∀ x ∈ xs, WFNamed x

/-- A list of named elements. -/
def WFNameArr (w : JValue) : Prop :=
  ∃ xs, w = .arr xs ∧ ∀ x ∈ xs, WFNamed x

/-- A well-formed `credits` cell (§3: `cast` and `crew` are lists of named
entries). -/
def WFCredits (v : JValue) : Prop :=
  ∀ fs, v = .obj fs →
    (∀ w, lookupJ "cast" fs = some w → WFNameArr w) ∧
    (∀ w, lookupJ "crew" fs = some w → WFNameArr w)

/-- The row-level effect of dropping one column. -/
def dropKeyRow (c : String) (r : Row) : Row := r.filter (fun p => p.1 != c)

/-- The row-level effect of the pruning stage. -/
def dropKeysRow (r : Row) : Row := colsToDrop.foldl (fun r c => dropKeyRow c r) r

/-- The row-level effect of the flattening stage. -/
def flattenRowE (r : Row) : Except String Row :=
  foldME (fun r c => do
    let v ← flattenCellFn c (cellOf r c)
    return setCell r c v) r extractedColumns

/-- The row-level effect of the numeric coercion stage. -/
def numericRow (r : Row) : Row :=
  numericCols.foldl (fun r c => setCell r c (toNumeric (cellOf r c))) r

/-- The row-level effect of the zero-to-null stage. -/
def zeroRow (r : Row) : Row :=
  ["budget", "revenue", "runtime"].foldl (fun r c => setCell r c (zeroToNull (cellOf r c))) r

/-- The row-level effect of the zero-votes stage. -/
def voteRow (r : Row) : Row :=
  if scalarEq (cellOf r "vote_count") (.num 0) then setCell r "vote_average" .null else r

/-- The row-level effect of the date coercion stage. -/
def dateRow (r : Row) : Row :=
  setCell r "release_date" (toDatetime (cellOf r "release_date"))

/-- The row-level effect of the unit conversion stage. -/
def unitRow (r : Row) : Row :=
  let r6 := setCell r "budget" (toMillions (cellOf r "budget"))
  setCell r6 "revenue" (toMillions (cellOf r6 "revenue"))

/-- The row-level effect of the placeholder cleaning stage. -/
def textRow (r : Row) : Row :=
  let r9 := setCell r "overview" (cleanPlaceholder (cellOf r "overview"))
  setCell r9 "tagline" (cleanPlaceholder (cellOf r9 "tagline"))

/-- The pure conversion steps that follow flattening, in source order:
numeric coercion, date coercion, zero-to-null, unit scaling, zero-vote
rating nulling, placeholder cleaning. -/
def rowPost (r2 : Row) : Row :=
  textRow (voteRow (unitRow (zeroRow (dateRow (numericRow r2)))))

/-- The row-level effect of all conversion stages in source order. -/
def rowConvertE (r : Row) : Except String Row := do
  let r2 ← flattenRowE (dropKeysRow r)
  return rowPost r2

/-- The row-level effect of the rename stage. -/
def renameRowFn (r : Row) : Row := r.map (fun p => (renameKey p.1, p.2))

/-- The quality-filter block at the row level: null id/title drop, then
keep-first dedup, then the 10-non-null threshold over the given columns,
then the Released filter. -/
def qualityRows (cols : List String) (rows : List Row) : List Row :=
  ((dedupByKey (fun r => cellOf r "id") []
      (rows.filter (fun r =>
        !(scalarEq (cellOf r "id") .null) && !(scalarEq (cellOf r "title") .null)))).filter
    (fun r => decide (10 ≤ countNonNull cols r))).filter
    (fun r => scalarEq (cellOf r "status") (.str "Released"))

/-- Net effect of the pipeline on a money column's raw cell: coerce
numeric, zero to null, divide by 1,000,000. -/
def moneyConv (v : JValue) : JValue := toMillions (zeroToNull (toNumeric v))

/-- Net effect of the pipeline on the raw `runtime` cell. -/
def runtimeConv (v : JValue) : JValue := zeroToNull (toNumeric v)

/-- Is the cell null or a non-positive number?  (The premise of C5's
"roi must be null" clause.) -/
def nonPosOrNull : JValue → Bool
  | .null => true
  | .num q => decide (q ≤ 0)
  | _ => false

/-- Claim C5 as stated: over every transformed table with the KPI columns
attached, `roi` is null whenever `budget_musd` is null or not positive,
and `roi` is never infinite. -/
def roiClaimC5 : Prop :=
  ∀ rs t t2, transform rs = .ok t → addKPIs t = .ok t2 →
    ∀ r ∈ t2.rows,
      (nonPosOrNull (cellOf r "budget_musd") = true → cellOf r "roi" = .null) ∧
      cellOf r "roi" ≠ .posInf ∧ cellOf r "roi" ≠ .negInf

/-- A raw record with every column the script touches; `budget` is a
parameter, ten cells are non-null (`status` among them) and the rest are
null, so the row sits exactly at the 10-non-null threshold while `status`
is still a column. -/
def exRecWith (budget : JValue) : Row :=
  [("adult", .bool false), ("imdb_id", .str "tt1"), ("original_title", .str "A"),
   ("video", .bool false), ("homepage", .null),
   ("id", .num 7), ("title", .str "A"), ("status", .str "Released"),
   ("budget", budget), ("revenue", .num 2000000), ("runtime", .num 100),
   ("popularity", .num 5), ("vote_count", .num 3), ("vote_average", .num 7),
   ("overview", .str "hello"), ("tagline", .null), ("release_date", .null),
   ("belongs_to_collection", .null), ("genres", .null), ("spoken_languages", .null),
   ("production_countries", .null), ("production_companies", .null), ("credits", .null)]

/-- The C1 counterexample input: exactly 10 non-null cells, one of them
`status`. -/
def exRecC1 : Row := exRecWith (.num 1000000)

/-- The C5 counterexample input: a negative raw budget. -/
def exRecNeg : Row := exRecWith (.num (-2000000))

/-- The C3 failing input: a complete record that merely lacks a
`homepage` field. -/
def exRec3 : Row := exRecC1.filter (fun p => p.1 != "homepage")

/-- A well-formed credits object used by the witnesses: six cast entries
and a crew with one director. -/
def exCredits : JValue :=
  .obj [("cast", .arr [.obj [("name", .str "A1")], .obj [("name", .str "A2")],
          .obj [("name", .str "A3")], .obj [("name", .str "A4")],
          .obj [("name", .str "A5")], .obj [("name", .str "A6")]]),
        ("crew", .arr [.obj [("name", .str "D1"), ("job", .str "Director")],
          .obj [("name", .str "W1"), ("job", .str "Writer")]])]

/-- A rich raw record for the witnesses: nested fields populated, survives
every filter. -/
def exRecFull : Row :=
  [("adult", .bool false), ("imdb_id", .str "tt2"), ("original_title", .str "Test Movie"),
   ("video", .bool false), ("homepage", .str "http"),
   ("id", .num 100), ("title", .str "Test Movie"), ("status", .str "Released"),
   ("budget", .num 1000000), ("revenue", .num 2000000), ("runtime", .num 120),
   ("popularity", .num 9), ("vote_count", .num 50), ("vote_average", .num 8),
   ("overview", .str "plot"), ("tagline", .str "tag"), ("release_date", .str "2020-01-01"),
   ("belongs_to_collection", .obj [("name", .str "Test Collection")]),
   ("genres", .arr [.obj [("name", .str "Action")], .obj [("name", .str "Sci-Fi")]]),
   ("spoken_languages", .arr [.obj [("name", .str "English")]]),
   ("production_countries", .arr [.obj [("name", .str "USA")]]),
   ("production_companies", .arr [.obj [("name", .str "Acme")]]),
   ("credits", exCredits)]

/-- Unwrap an `Except` table (only applied where the run is proven `ok`). -/
def getOkT (e : Except String Table) : Table :=
  match e with
  | .ok t => t
  | .error _ => ⟨[], []⟩

/-- The transformed witness table. -/
def tFull : Table := getOkT (transform [exRecFull])

/-- The transformed C5 counterexample table. -/
def tNeg : Table := getOkT (transform [exRecNeg])

/-- The KPI-enriched C5 counterexample table. -/
def tNegK : Table := getOkT (addKPIs tNeg)

/-- The credit-enriched witness table. -/
def tEnr : Table := getOkT (enrich tFull [exRecFull])

/-- The single-group input of the repository's own
`test_franchise_analysis_single_category`: every `belongs_to_collection`
is null. -/
def exC2 : Table :=
  ⟨["id", "title", "revenue_musd", "budget_musd", "popularity", "roi",
    "vote_average", "belongs_to_collection"],
   [[("id", .num 1), ("title", .str "A"), ("revenue_musd", .num 100),
     ("budget_musd", .num 50), ("popularity", .num (21/2)), ("roi", .num 2),
     ("vote_average", .num (15/2)), ("belongs_to_collection", .null)],
    [("id", .num 2), ("title", .str "B"), ("revenue_musd", .num 200),
     ("budget_musd", .num 100), ("popularity", .num 12), ("roi", .num 2),
     ("vote_average", .num 8), ("belongs_to_collection", .null)]]⟩

theorem ok_bind {α β : Type} (x : α) (g : α → Except String β) :
    (Except.ok x >>= g) = g x := rfl

theorem error_bind {α β : Type} (e : String) (g : α → Except String β) :
    ((Except.error e : Except String α) >>= g) = Except.error e := rfl

theorem pure_eq_ok {α : Type} (x : α) : (pure x : Except String α) = .ok x := rfl

theorem lookupJ_cons (c k : String) (v : JValue) (r : List (String × JValue)) :
    lookupJ c ((k, v) :: r) = if k = c then some v else lookupJ c r := rfl

theorem lookupJ_append (c : String) (l1 l2 : List (String × JValue)) :
    lookupJ c (l1 ++ l2) =
      match lookupJ c l1 with
      | some v => some v
      | none => lookupJ c l2 := by
  induction l1 with
  | nil => rfl
  | cons p t ih =>
      obtain ⟨k, v⟩ := p
      by_cases hk : k = c
      · rw [List.cons_append, lookupJ_cons, if_pos hk, lookupJ_cons, if_pos hk]
      · rw [List.cons_append, lookupJ_cons, if_neg hk, lookupJ_cons, if_neg hk, ih]

theorem lookupJ_map_set (c : String) (v : JValue) (r : List (String × JValue)) :
    lookupJ c (r.map (fun p => if p.1 = c then (c, v) else p)) =
      (lookupJ c r).map (fun _ => v) := by
  induction r with
  | nil => rfl
  | cons p t ih =>
      obtain ⟨k, w⟩ := p
      by_cases hk : k = c
      · simp only [List.map_cons, if_pos hk, lookupJ_cons, if_pos hk, if_pos rfl]
        rfl
      · simp only [List.map_cons, if_neg hk, lookupJ_cons, if_neg hk]
        exact ih

theorem lookupJ_map_set_ne (c c2 : String) (v : JValue) (r : List (String × JValue))
    (h : c2 ≠ c) :
    lookupJ c2 (r.map (fun p => if p.1 = c then (c, v) else p)) = lookupJ c2 r := by
  induction r with
  | nil => rfl
  | cons p t ih =>
      obtain ⟨k, w⟩ := p
      by_cases hk : k = c
      · have hc2 : ¬ (c = c2) := fun hh => h hh.symm
        have hk2 : ¬ (k = c2) := by rw [hk]; exact hc2
        rw [List.map_cons, if_pos hk, lookupJ_cons, if_neg hc2, lookupJ_cons, if_neg hk2]
        exact ih
      · rw [List.map_cons, if_neg hk, lookupJ_cons, lookupJ_cons, ih]

theorem lookupJ_setCell_self (r : Row) (c : String) (v : JValue) :
    lookupJ c (setCell r c v) = some v := by
  unfold setCell
  split
  · rename_i h
    rw [lookupJ_map_set]
    cases hl : lookupJ c r
    · rw [hl] at h; simp at h
    · rfl
  · rename_i h
    have hl : lookupJ c r = none := by
      cases hl : lookupJ c r
      · rfl
      · rw [hl] at h; simp at h
    rw [lookupJ_append, hl, lookupJ_cons, if_pos rfl]

theorem lookupJ_setCell_ne (r : Row) (c c2 : String) (v : JValue) (h : c2 ≠ c) :
    lookupJ c2 (setCell r c v) = lookupJ c2 r := by
  unfold setCell
  split
  · exact lookupJ_map_set_ne c c2 v r h
  · rw [lookupJ_append]
    cases hl : lookupJ c2 r
    · rw [lookupJ_cons, if_neg (fun hh => h hh.symm)]; rfl
    · rfl

theorem cellOf_setCell_self (r : Row) (c : String) (v : JValue) :
    cellOf (setCell r c v) c = v := by
  unfold cellOf; rw [lookupJ_setCell_self]; rfl

theorem cellOf_setCell_ne (r : Row) (c c2 : String) (v : JValue) (h : c2 ≠ c) :
    cellOf (setCell r c v) c2 = cellOf r c2 := by
  unfold cellOf; rw [lookupJ_setCell_ne r c c2 v h]

theorem lookupJ_dropKey_ne (c c2 : String) (r : Row) (h : c2 ≠ c) :
    lookupJ c2 (dropKeyRow c r) = lookupJ c2 r := by
  induction r with
  | nil => rfl
  | cons p t ih =>
      obtain ⟨k, w⟩ := p
      unfold dropKeyRow at ih ⊢
      rw [List.filter_cons]
      by_cases hk : k = c
      · have hk2 : ¬ (k = c2) := by rw [hk]; exact fun hh => h hh.symm
        rw [if_neg (by simp [hk]), lookupJ_cons, if_neg hk2]
        exact ih
      · rw [if_pos (by simp [hk]), lookupJ_cons, lookupJ_cons, ih]

theorem lookupJ_dropKey_self (c : String) (r : Row) :
    lookupJ c (dropKeyRow c r) = none := by
  induction r with
  | nil => rfl
  | cons p t ih =>
      obtain ⟨k, w⟩ := p
      unfold dropKeyRow at ih ⊢
      by_cases hk : k = c
      · rw [List.filter_cons, if_neg (by simp [hk])]
        exact ih
      · rw [List.filter_cons, if_pos (by simp [hk]), lookupJ_cons, if_neg hk]
        exact ih

theorem cellOf_dropKey_ne (c c2 : String) (r : Row) (h : c2 ≠ c) :
    cellOf (dropKeyRow c r) c2 = cellOf r c2 := by
  unfold cellOf; rw [lookupJ_dropKey_ne c c2 r h]

theorem mapME_ok_forall₂ {α β : Type} (f : α → Except String β) (l : List α)
    (l2 : List β) (h : mapME f l = .ok l2) :
    List.Forall₂ (fun a b => f a = .ok b) l l2 := by
  induction l generalizing l2 with
  | nil =>
      unfold mapME at h
      cases h
      exact List.Forall₂.nil
  | cons a t ih =>
      unfold mapME at h
      cases hfa : f a with
      | error e => rw [hfa, error_bind] at h; simp at h
      | ok b =>
          rw [hfa, ok_bind] at h
          cases hft : mapME f t with
          | error e => rw [hft, error_bind] at h; simp at h
          | ok tb =>
              rw [hft, ok_bind, pure_eq_ok] at h
              cases h
              exact List.Forall₂.cons hfa (ih _ hft)

theorem mapME_ok_mem_right {α β : Type} (f : α → Except String β) (l : List α)
    (l2 : List β) (h : mapME f l = .ok l2) :
    ∀ b ∈ l2, ∃ a ∈ l, f a = .ok b := by
  have h2 := mapME_ok_forall₂ f l l2 h
  clear h
  induction h2 with
  | nil => intro b hb; cases hb
  | cons hab _ ih =>
      intro b hb
      rcases List.mem_cons.mp hb with rfl | hmem
      · exact ⟨_, List.mem_cons_self _ _, hab⟩
      · obtain ⟨a, ha, hfa⟩ := ih _ hmem
        exact ⟨a, List.mem_cons_of_mem _ ha, hfa⟩

theorem mapME_ok_mem_left {α β : Type} (f : α → Except String β) (l : List α)
    (l2 : List β) (h : mapME f l = .ok l2) :
    ∀ a ∈ l, ∃ b ∈ l2, f a = .ok b := by
  have h2 := mapME_ok_forall₂ f l l2 h
  clear h
  induction h2 with
  | nil => intro a ha; cases ha
  | cons hab _ ih =>
      intro a ha
      rcases List.mem_cons.mp ha with rfl | hmem
      · exact ⟨_, List.mem_cons_self _ _, hab⟩
      · obtain ⟨b, hb, hfb⟩ := ih _ hmem
        exact ⟨b, List.mem_cons_of_mem _ hb, hfb⟩

theorem mapME_ok_of_forall {α β : Type} (f : α → Except String β) (g : α → β)
    (l : List α) (h : ∀ a ∈ l, f a = .ok (g a)) : mapME f l = .ok (l.map g) := by
  induction l with
  | nil => rfl
  | cons a t ih =>
      unfold mapME
      rw [h a (List.mem_cons_self a t), ok_bind,
        ih (fun a ha => h a (List.mem_cons_of_mem _ ha)), ok_bind]
      rfl

theorem mapME_map {α β γ : Type} (f : β → Except String γ) (g : α → β) (l : List α) :
    mapME f (l.map g) = mapME (fun a => f (g a)) l := by
  induction l with
  | nil => rfl
  | cons a t ih =>
      rw [List.map_cons]
      simp only [mapME]
      rw [ih]

theorem mapME_bind_ok {α β γ : Type} (g1 : α → Except String β) (g2 : β → Except String γ)
    (l : List α) (l1 : List β) (l2 : List γ)
    (h1 : mapME g1 l = .ok l1) (h2 : mapME g2 l1 = .ok l2) :
    mapME (fun a => g1 a >>= g2) l = .ok l2 := by
  induction l generalizing l1 l2 with
  | nil =>
      unfold mapME at h1
      cases h1
      unfold mapME at h2
      cases h2
      rfl
  | cons a t ih =>
      unfold mapME at h1 ⊢
      cases hfa : g1 a with
      | error e => rw [hfa, error_bind] at h1; simp at h1
      | ok b =>
          rw [hfa, ok_bind] at h1
          cases hft : mapME g1 t with
          | error e => rw [hft, error_bind] at h1; simp at h1
          | ok tb =>
              rw [hft, ok_bind, pure_eq_ok] at h1
              cases h1
              unfold mapME at h2
              cases hgb : g2 b with
              | error e => rw [hgb, error_bind] at h2; simp at h2
              | ok b2 =>
                  rw [hgb, ok_bind] at h2
                  cases hgt : mapME g2 tb with
                  | error e => rw [hgt, error_bind] at h2; simp at h2
                  | ok t2 =>
                      rw [hgt, ok_bind, pure_eq_ok] at h2
                      cases h2
                      rw [ok_bind, hgb, ok_bind, ih tb t2 hft hgt, ok_bind, pure_eq_ok]

theorem mapME_bind_split {α β γ : Type} (g1 : α → Except String β) (g2 : β → Except String γ)
    (l : List α) (l2 : List γ) (h : mapME (fun a => g1 a >>= g2) l = .ok l2) :
    ∃ l1, mapME g1 l = .ok l1 ∧ mapME g2 l1 = .ok l2 := by
  induction l generalizing l2 with
  | nil =>
      unfold mapME at h
      cases h
      exact ⟨[], rfl, rfl⟩
  | cons a t ih =>
      unfold mapME at h
      cases hfa : g1 a with
      | error e => rw [hfa, error_bind, error_bind] at h; simp at h
      | ok b =>
          rw [hfa, ok_bind] at h
          cases hgb : g2 b with
          | error e => rw [hgb, error_bind] at h; simp at h
          | ok b2 =>
              rw [hgb, ok_bind] at h
              cases hft : mapME (fun a => g1 a >>= g2) t with
              | error e => rw [hft, error_bind] at h; simp at h
              | ok t2 =>
                  rw [hft, ok_bind, pure_eq_ok] at h
                  cases h
                  obtain ⟨l1, hl1, hl2⟩ := ih t2 hft
                  refine ⟨b :: l1, ?_, ?_⟩
                  · unfold mapME; rw [hfa, ok_bind, hl1, ok_bind]; rfl
                  · unfold mapME; rw [hgb, ok_bind, hl2, ok_bind]; rfl

theorem mapColumn_ok (t : Table) (c : String) (f : JValue → JValue) (t2 : Table)
    (h : mapColumn t c f = .ok t2) :
    t.cols.contains c = true ∧ t2.cols = t.cols ∧
    t2.rows = t.rows.map (fun r => setCell r c (f (cellOf r c))) := by
  unfold mapColumn at h
  split at h
  · rename_i hc
    cases h
    exact ⟨hc, rfl, rfl⟩
  · simp at h

theorem mapColumnE_ok (t : Table) (c : String) (f : JValue → Except String JValue)
    (t2 : Table) (h : mapColumnE t c f = .ok t2) :
    t.cols.contains c = true ∧ t2.cols = t.cols ∧
    mapME (fun r => do
      let v ← f (cellOf r c)
      return setCell r c v) t.rows = .ok t2.rows := by
  unfold mapColumnE at h
  split at h
  · rename_i hc
    cases hm : mapME (fun r => do
        let v ← f (cellOf r c)
        return setCell r c v) t.rows with
    | error e => rw [hm, error_bind] at h; simp at h
    | ok rows =>
        rw [hm, ok_bind, pure_eq_ok] at h
        cases h
        exact ⟨hc, rfl, rfl⟩
  · simp at h

theorem mapColumnE_pos (t : Table) (c : String) (f : JValue → Except String JValue)
    (rows : List Row) (hc : t.cols.contains c = true)
    (hm : mapME (fun r => do
      let v ← f (cellOf r c)
      return setCell r c v) t.rows = .ok rows) :
    mapColumnE t c f = .ok ⟨t.cols, rows⟩ := by
  unfold mapColumnE
  rw [if_pos hc, hm, ok_bind, pure_eq_ok]

theorem foldME_mapColumn_ok (cs : List String) (f : JValue → JValue) (t t2 : Table)
    (h : foldME (fun acc col => mapColumn acc col f) t cs = .ok t2) :
    t2.cols = t.cols ∧
    t2.rows = t.rows.map (fun r => cs.foldl (fun r c => setCell r c (f (cellOf r c))) r) ∧
    ∀ c ∈ cs, t.cols.contains c = true := by
  induction cs generalizing t with
  | nil =>
      unfold foldME at h
      cases h
      refine ⟨rfl, ?_, by simp⟩
      simp
  | cons c cs ih =>
      unfold foldME at h
      cases h1 : mapColumn t c f with
      | error e => rw [h1, error_bind] at h; simp at h
      | ok t1 =>
          rw [h1, ok_bind] at h
          obtain ⟨hc, hcols, hrows⟩ := mapColumn_ok _ _ _ _ h1
          obtain ⟨ih1, ih2, ih3⟩ := ih t1 h
          refine ⟨by rw [ih1, hcols], ?_, ?_⟩
          · rw [ih2, hrows, List.map_map]
            rfl
          · intro c2 hc2
            rcases List.mem_cons.mp hc2 with rfl | hmem
            · exact hc
            · have := ih3 c2 hmem
              rw [hcols] at this
              exact this

theorem foldME_mapColumnE_ok (cs : List String) (F : String → JValue → Except String JValue)
    (t t2 : Table)
    (h : foldME (fun acc col => mapColumnE acc col (F col)) t cs = .ok t2) :
    t2.cols = t.cols ∧
    mapME (fun r => foldME (fun r c => do
      let v ← F c (cellOf r c)
      return setCell r c v) r cs) t.rows = .ok t2.rows ∧
    ∀ c ∈ cs, t.cols.contains c = true := by
  induction cs generalizing t with
  | nil =>
      unfold foldME at h
      cases h
      refine ⟨rfl, ?_, by simp⟩
      have : ∀ r ∈ t2.rows, (foldME (fun r c => do
          let v ← F c (cellOf r c)
          return setCell r c v) r [] : Except String Row) = .ok (id r) := by
        intro r _; rfl
      have h2 := mapME_ok_of_forall _ id t2.rows this
      rw [h2, List.map_id]
  | cons c cs ih =>
      unfold foldME at h
      cases h1 : mapColumnE t c (F c) with
      | error e => rw [h1, error_bind] at h; simp at h
      | ok t1 =>
          rw [h1, ok_bind] at h
          obtain ⟨hc, hcols, hrows⟩ := mapColumnE_ok _ _ _ _ h1
          obtain ⟨ih1, ih2, ih3⟩ := ih t1 h
          refine ⟨by rw [ih1, hcols], ?_, ?_⟩
          · have hbind := mapME_bind_ok
              (fun r => do
                let v ← F c (cellOf r c)
                return setCell r c v)
              (fun r => foldME (fun r c => do
                let v ← F c (cellOf r c)
                return setCell r c v) r cs)
              t.rows t1.rows t2.rows hrows ih2
            exact hbind
          · intro c2 hc2
            rcases List.mem_cons.mp hc2 with rfl | hmem
            · exact hc
            · have := ih3 c2 hmem
              rw [hcols] at this
              exact this

theorem foldME_mapColumnE_pos (cs : List String) (F : String → JValue → Except String JValue)
    (t : Table) (rows2 : List Row)
    (hc : ∀ c ∈ cs, t.cols.contains c = true)
    (hm : mapME (fun r => foldME (fun r c => do
      let v ← F c (cellOf r c)
      return setCell r c v) r cs) t.rows = .ok rows2) :
    foldME (fun acc col => mapColumnE acc col (F col)) t cs = .ok ⟨t.cols, rows2⟩ := by
  induction cs generalizing t rows2 with
  | nil =>
      have : ∀ r ∈ t.rows, (foldME (fun r c => do
          let v ← F c (cellOf r c)
          return setCell r c v) r [] : Except String Row) = .ok (id r) := by
        intro r _; rfl
      rw [mapME_ok_of_forall _ id t.rows this, List.map_id] at hm
      cases hm
      rfl
  | cons c cs ih =>
      have hsplit := mapME_bind_split
        (fun r => do
          let v ← F c (cellOf r c)
          return setCell r c v)
        (fun r => foldME (fun r c => do
          let v ← F c (cellOf r c)
          return setCell r c v) r cs)
        t.rows rows2 hm
      obtain ⟨rows1, hm1, hm2⟩ := hsplit
      unfold foldME
      rw [mapColumnE_pos t c (F c) rows1 (hc c (List.mem_cons_self c cs)) hm1, ok_bind]
      exact ih ⟨t.cols, rows1⟩ rows2 (fun c2 h2 => hc c2 (List.mem_cons_of_mem _ h2)) hm2

theorem foldME_dropCols_ok (cs : List String) (t t2 : Table)
    (hguard : ∀ c ∈ cs, colsToDrop.contains c = true)
    (h : foldME (fun acc col =>
      if colsToDrop.contains col then dropColumnE acc col else .ok acc) t cs = .ok t2) :
    t2.cols = cs.foldl (fun cl c => cl.erase c) t.cols ∧
    t2.rows = t.rows.map (fun r => cs.foldl (fun r c => dropKeyRow c r) r) ∧
    ∀ c ∈ cs, t.cols.contains c = true := by
  induction cs generalizing t with
  | nil =>
      unfold foldME at h
      cases h
      refine ⟨rfl, by simp, by simp⟩
  | cons c cs ih =>
      unfold foldME at h
      rw [if_pos (hguard c (List.mem_cons_self c cs))] at h
      cases h1 : dropColumnE t c with
      | error e => rw [h1, error_bind] at h; simp at h
      | ok t1 =>
          rw [h1, ok_bind] at h
          unfold dropColumnE at h1
          split at h1
          · rename_i hc
            cases h1
            obtain ⟨ih1, ih2, ih3⟩ := ih _ (fun c2 h2 => hguard c2 (List.mem_cons_of_mem _ h2)) h
            refine ⟨ih1, ?_, ?_⟩
            · rw [ih2, List.map_map]
              rfl
            · intro c2 hc2
              rcases List.mem_cons.mp hc2 with rfl | hmem
              · exact hc
              · have h3 := ih3 c2 hmem
                have h3m : c2 ∈ t.cols.erase c := by simpa using h3
                simpa using List.mem_of_mem_erase h3m
          · simp at h1

theorem voteStage_ok (t t2 : Table) (h : voteStage t = .ok t2) :
    t2.cols = t.cols ∧ t2.rows = t.rows.map voteRow ∧
    t.cols.contains "vote_count" = true ∧ t.cols.contains "vote_average" = true := by
  unfold voteStage at h
  split at h
  · rename_i hc
    cases h
    rw [Bool.and_eq_true] at hc
    exact ⟨rfl, rfl, hc.1, hc.2⟩
  · simp at h

theorem dateStage_ok (t t2 : Table) (h : dateStage t = .ok t2) :
    t2.cols = t.cols ∧ t2.rows = t.rows.map dateRow ∧
    t.cols.contains "release_date" = true := by
  obtain ⟨hc, hcols, hrows⟩ := mapColumn_ok _ _ _ _ h
  exact ⟨hcols, hrows, hc⟩

theorem unitStage_ok (t t2 : Table) (h : unitStage t = .ok t2) :
    t2.cols = t.cols ∧ t2.rows = t.rows.map unitRow ∧
    t.cols.contains "budget" = true ∧ t.cols.contains "revenue" = true := by
  unfold unitStage at h
  cases h1 : mapColumn t "budget" toMillions with
  | error e => rw [h1, error_bind] at h; simp at h
  | ok t1 =>
      rw [h1, ok_bind] at h
      obtain ⟨hc1, hcols1, hrows1⟩ := mapColumn_ok _ _ _ _ h1
      obtain ⟨hc2, hcols2, hrows2⟩ := mapColumn_ok _ _ _ _ h
      refine ⟨by rw [hcols2, hcols1], ?_, hc1, by rw [hcols1] at hc2; exact hc2⟩
      rw [hrows2, hrows1, List.map_map]
      rfl

theorem textStage_ok (t t2 : Table) (h : textStage t = .ok t2) :
    t2.cols = t.cols ∧ t2.rows = t.rows.map textRow ∧
    t.cols.contains "overview" = true ∧ t.cols.contains "tagline" = true := by
  unfold textStage at h
  cases h1 : mapColumn t "overview" cleanPlaceholder with
  | error e => rw [h1, error_bind] at h; simp at h
  | ok t1 =>
      rw [h1, ok_bind] at h
      obtain ⟨hc1, hcols1, hrows1⟩ := mapColumn_ok _ _ _ _ h1
      obtain ⟨hc2, hcols2, hrows2⟩ := mapColumn_ok _ _ _ _ h
      refine ⟨by rw [hcols2, hcols1], ?_, hc1, by rw [hcols1] at hc2; exact hc2⟩
      rw [hrows2, hrows1, List.map_map]
      rfl

theorem idTitleStage_ok (t t2 : Table) (h : idTitleStage t = .ok t2) :
    t2.cols = t.cols ∧
    t2.rows = t.rows.filter (fun r =>
      !(scalarEq (cellOf r "id") .null) && !(scalarEq (cellOf r "title") .null)) ∧
    t.cols.contains "id" = true ∧ t.cols.contains "title" = true := by
  unfold idTitleStage at h
  split at h
  · rename_i hc
    cases h
    rw [Bool.and_eq_true] at hc
    exact ⟨rfl, rfl, hc.1, hc.2⟩
  · simp at h

theorem dedupStage_ok (t t2 : Table) (h : dedupStage t = .ok t2) :
    t2.cols = t.cols ∧
    t2.rows = dedupByKey (fun r => cellOf r "id") [] t.rows ∧
    t.cols.contains "id" = true := by
  unfold dedupStage at h
  split at h
  · rename_i hc
    cases h
    exact ⟨rfl, rfl, hc⟩
  · simp at h

theorem threshStage_eq (t : Table) :
    threshStage t =
      .ok ⟨t.cols, t.rows.filter (fun r => decide (10 ≤ countNonNull t.cols r))⟩ := rfl

theorem statusStage_ok (t t2 : Table) (h : statusStage t = .ok t2) :
    t.cols.contains "status" = true ∧
    t2.cols = t.cols.erase "status" ∧
    t2.rows = (t.rows.filter (fun r =>
      scalarEq (cellOf r "status") (.str "Released"))).map (dropKeyRow "status") := by
  unfold statusStage at h
  split at h
  · rename_i hc
    unfold dropColumnE at h
    split at h
    · cases h
      exact ⟨hc, rfl, rfl⟩
    · rename_i hc2
      exact absurd hc hc2
  · simp at h

theorem reindexStage_ok (t t2 : Table) (h : reindexStage t = .ok t2) :
    t.cols.Nodup ∧ t2.cols = targetOrder ∧ t2.rows = t.rows.map (reindexRow t.cols) := by
  unfold reindexStage at h
  split at h
  · rename_i hn
    cases h
    exact ⟨hn, rfl, rfl⟩
  · simp at h

theorem convertStages_ok (rs : List Row) (u : Table) (h : convertStages rs = .ok u) :
    mapME rowConvertE rs = .ok u.rows ∧
    u.cols = colsToDrop.foldl (fun cl c => cl.erase c) (mkCols rs) ∧
    (∀ c ∈ numericCols, u.cols.contains c = true) ∧
    (∀ c ∈ extractedColumns, u.cols.contains c = true) := by
  unfold convertStages at h
  cases h1 : dropStage (mkTable rs) with
  | error e => rw [h1, error_bind] at h; simp at h
  | ok t1 =>
  rw [h1, ok_bind] at h
  cases h2 : flattenStage t1 with
  | error e => rw [h2, error_bind] at h; simp at h
  | ok t2 =>
  rw [h2, ok_bind] at h
  cases h3 : numericStage t2 with
  | error e => rw [h3, error_bind] at h; simp at h
  | ok t3 =>
  rw [h3, ok_bind] at h
  cases h4 : dateStage t3 with
  | error e => rw [h4, error_bind] at h; simp at h
  | ok t4 =>
  rw [h4, ok_bind] at h
  cases h5 : zeroStage t4 with
  | error e => rw [h5, error_bind] at h; simp at h
  | ok t5 =>
  rw [h5, ok_bind] at h
  cases h6 : unitStage t5 with
  | error e => rw [h6, error_bind] at h; simp at h
  | ok t6 =>
  rw [h6, ok_bind] at h
  cases h7 : voteStage t6 with
  | error e => rw [h7, error_bind] at h; simp at h
  | ok t7 =>
  rw [h7, ok_bind] at h
  unfold dropStage at h1
  obtain ⟨d1, d2, _⟩ := foldME_dropCols_ok colsToDrop _ t1
    (by intro c hc; simpa using hc) h1
  unfold flattenStage at h2
  obtain ⟨f1, f2, _⟩ := foldME_mapColumnE_ok extractedColumns flattenCellFn t1 t2 h2
  unfold numericStage at h3
  obtain ⟨n1, n2, n3⟩ := foldME_mapColumn_ok numericCols toNumeric t2 t3 h3
  obtain ⟨dt1, dt2, _⟩ := dateStage_ok t3 t4 h4
  unfold zeroStage at h5
  obtain ⟨z1, z2, _⟩ := foldME_mapColumn_ok _ zeroToNull t4 t5 h5
  obtain ⟨u1, u2, _, _⟩ := unitStage_ok t5 t6 h6
  obtain ⟨v1, v2, _, _⟩ := voteStage_ok t6 t7 h7
  obtain ⟨x1, x2, _, _⟩ := textStage_ok t7 u h
  refine ⟨?_, ?_, ?_, ?_⟩
  · -- the per-row composition
    have hrows2 : mapME (fun r => flattenRowE (dropKeysRow r)) rs = .ok t2.rows := by
      have hmm : mapME flattenRowE (rs.map dropKeysRow) = .ok t2.rows := by
        have : t1.rows = rs.map dropKeysRow := by
          rw [d2]; rfl
        rw [← this]
        exact f2
      rw [mapME_map] at hmm
      exact hmm
    have hpost : u.rows = t2.rows.map rowPost := by
      rw [x2, v2, u2, z2, dt2, n2, List.map_map, List.map_map, List.map_map,
        List.map_map, List.map_map]
      apply List.map_congr_left
      intro r _
      simp only [Function.comp_apply]
      rw [rowPost, zeroRow, numericRow]
    have hfin := mapME_bind_ok (fun r => flattenRowE (dropKeysRow r))
      (fun r2 => pure (rowPost r2))
      rs t2.rows u.rows hrows2
      (by
        rw [hpost]
        exact mapME_ok_of_forall _ _ t2.rows (fun r _ => rfl))
    exact hfin
  · rw [x1, v1, u1, z1, dt1, n1, f1, d1]
    rfl
  · intro c hc
    have := n3 c hc
    rw [x1, v1, u1, z1, dt1, n1]
    exact this
  · intro c hc
    obtain ⟨_, _, f3⟩ := foldME_mapColumnE_ok extractedColumns flattenCellFn t1 t2 h2
    have := f3 c hc
    rw [x1, v1, u1, z1, dt1, n1, f1]
    exact this

theorem renameStage_eq (t : Table) :
    renameStage t = ⟨t.cols.map renameKey, t.rows.map renameRowFn⟩ := rfl

theorem transform_ok_struct (rs : List Row) (t : Table) (h : transform rs = .ok t) :
    ∃ u, convertStages rs = .ok u ∧
      mapME rowConvertE rs = .ok u.rows ∧
      u.cols.contains "id" = true ∧ u.cols.contains "title" = true ∧
      u.cols.contains "status" = true ∧
      t.cols = targetOrder ∧
      ((u.cols.erase "status").map renameKey).Nodup ∧
      t.rows = (qualityRows u.cols u.rows).map
        (fun r => reindexRow ((u.cols.erase "status").map renameKey)
          (renameRowFn (dropKeyRow "status" r))) := by
  unfold transform beforeReindex at h
  cases hu : convertStages rs with
  | error e => rw [hu, error_bind, error_bind] at h; simp at h
  | ok u =>
  rw [hu, ok_bind] at h
  cases hi : idTitleStage u with
  | error e => rw [hi, error_bind, error_bind] at h; simp at h
  | ok t1 =>
  rw [hi, ok_bind] at h
  cases hd : dedupStage t1 with
  | error e => rw [hd, error_bind, error_bind] at h; simp at h
  | ok t2 =>
  rw [hd, ok_bind] at h
  rw [threshStage_eq, ok_bind] at h
  cases hs : statusStage ⟨t2.cols, t2.rows.filter
      (fun r => decide (10 ≤ countNonNull t2.cols r))⟩ with
  | error e => rw [hs, error_bind, error_bind] at h; simp at h
  | ok t4 =>
  rw [hs, ok_bind, pure_eq_ok, ok_bind] at h
  obtain ⟨i1, i2, i3, i4⟩ := idTitleStage_ok u t1 hi
  obtain ⟨d1, d2, _⟩ := dedupStage_ok t1 t2 hd
  obtain ⟨s0, s1, s2⟩ := statusStage_ok _ t4 hs
  obtain ⟨r1, r2, r3⟩ := reindexStage_ok _ t h
  obtain ⟨cv1, _, _, _⟩ := convertStages_ok rs u hu
  have hcols2 : t2.cols = u.cols := by rw [d1, i1]
  have hs0 : u.cols.contains "status" = true := by rw [← hcols2]; exact s0
  have ht4cols : t4.cols = u.cols.erase "status" := by rw [← hcols2]; exact s1
  have hrcols : (renameStage t4).cols = (u.cols.erase "status").map renameKey := by
    rw [renameStage_eq, ht4cols]
  have ht4rows : t4.rows = (qualityRows u.cols u.rows).map (dropKeyRow "status") := by
    rw [s2]
    unfold qualityRows
    rw [← i2, ← d2, ← hcols2]
  refine ⟨u, ?_, cv1, i3, i4, hs0, r2, ?_, ?_⟩
  · rfl
  · rw [hrcols] at r1
    exact r1
  · rw [r3, renameStage_eq]
    rw [ht4rows, List.map_map, List.map_map]
    apply List.map_congr_left
    intro r _
    simp only [Function.comp_apply]
    rw [ht4cols]

theorem dedupByKey_subset (key : Row → JValue) (seen : List JValue) (l : List Row) :
    ∀ r ∈ dedupByKey key seen l, r ∈ l := by
  induction l generalizing seen with
  | nil => intro r hr; cases hr
  | cons a t ih =>
      intro r hr
      unfold dedupByKey at hr
      split at hr
      · exact List.mem_cons_of_mem _ (ih _ r hr)
      · rcases List.mem_cons.mp hr with rfl | hmem
        · exact List.mem_cons_self _ _
        · exact List.mem_cons_of_mem _ (ih _ r hmem)

theorem qualityRows_subset (cols : List String) (rows : List Row) :
    ∀ r ∈ qualityRows cols rows, r ∈ rows := by
  intro r hr
  unfold qualityRows at hr
  have h1 := List.mem_of_mem_filter hr
  have h2 := List.mem_of_mem_filter h1
  have h3 := dedupByKey_subset _ _ _ _ h2
  exact List.mem_of_mem_filter h3

theorem foldl_dropKey_lookup_ne (cs : List String) (r : Row) (c : String)
    (hc : ∀ c2 ∈ cs, c ≠ c2) :
    lookupJ c (cs.foldl (fun r c2 => dropKeyRow c2 r) r) = lookupJ c r := by
  induction cs generalizing r with
  | nil => rfl
  | cons c2 cs ih =>
      rw [List.foldl_cons, ih _ (fun x hx => hc x (List.mem_cons_of_mem _ hx)),
        lookupJ_dropKey_ne c2 c r (hc c2 (List.mem_cons_self _ _))]

theorem foldl_setCellF_lookup_ne (cs : List String) (F : JValue → JValue) (r : Row)
    (c : String) (hc : ∀ c2 ∈ cs, c ≠ c2) :
    lookupJ c (cs.foldl (fun r c2 => setCell r c2 (F (cellOf r c2))) r) = lookupJ c r := by
  induction cs generalizing r with
  | nil => rfl
  | cons c2 cs ih =>
      rw [List.foldl_cons, ih _ (fun x hx => hc x (List.mem_cons_of_mem _ hx)),
        lookupJ_setCell_ne r c2 c _ (hc c2 (List.mem_cons_self _ _))]

theorem foldl_setCellF_lookup_mem (cs : List String) (F : JValue → JValue) (r : Row)
    (c : String) (hnodup : cs.Nodup) (hc : c ∈ cs) :
    lookupJ c (cs.foldl (fun r c2 => setCell r c2 (F (cellOf r c2))) r) =
      some (F (cellOf r c)) := by
  induction cs generalizing r with
  | nil => cases hc
  | cons c2 cs ih =>
      rw [List.foldl_cons]
      rcases List.mem_cons.mp hc with rfl | hmem
      · have hnotin : c ∉ cs := (List.nodup_cons.mp hnodup).1
        rw [foldl_setCellF_lookup_ne cs F _ c (fun x hx h2 => hnotin (h2 ▸ hx)),
          lookupJ_setCell_self]
      · have hne : c ≠ c2 := by
          intro hcc
          exact (List.nodup_cons.mp hnodup).1 (hcc ▸ hmem)
        rw [ih _ (List.nodup_cons.mp hnodup).2 hmem,
          cellOf_setCell_ne r c2 c _ hne]

theorem foldME_setCellE_lookup_ne (cs : List String)
    (F : String → JValue → Except String JValue) (r r2 : Row)
    (h : foldME (fun r c => do
      let v ← F c (cellOf r c)
      return setCell r c v) r cs = .ok r2)
    (c : String) (hc : ∀ c2 ∈ cs, c ≠ c2) : lookupJ c r2 = lookupJ c r := by
  induction cs generalizing r with
  | nil =>
      unfold foldME at h
      cases h
      rfl
  | cons c2 cs ih =>
      unfold foldME at h
      cases hF : F c2 (cellOf r c2) with
      | error e => rw [hF, error_bind, error_bind] at h; simp at h
      | ok v =>
          rw [hF, ok_bind, pure_eq_ok, ok_bind] at h
          rw [ih _ h (fun x hx => hc x (List.mem_cons_of_mem _ hx)),
            lookupJ_setCell_ne r c2 c v (hc c2 (List.mem_cons_self _ _))]

theorem foldME_setCellE_lookup_mem (cs : List String)
    (F : String → JValue → Except String JValue) (r r2 : Row)
    (h : foldME (fun r c => do
      let v ← F c (cellOf r c)
      return setCell r c v) r cs = .ok r2)
    (c : String) (hnodup : cs.Nodup) (hc : c ∈ cs) :
    ∃ v, F c (cellOf r c) = .ok v ∧ lookupJ c r2 = some v := by
  induction cs generalizing r with
  | nil => cases hc
  | cons c2 cs ih =>
      unfold foldME at h
      cases hF : F c2 (cellOf r c2) with
      | error e => rw [hF, error_bind, error_bind] at h; simp at h
      | ok v =>
          rw [hF, ok_bind, pure_eq_ok, ok_bind] at h
          rcases List.mem_cons.mp hc with rfl | hmem
          · have hnotin : c ∉ cs := (List.nodup_cons.mp hnodup).1
            refine ⟨v, hF, ?_⟩
            rw [foldME_setCellE_lookup_ne cs F _ r2 h c
              (fun x hx h2 => hnotin (h2 ▸ hx)), lookupJ_setCell_self]
          · have hne : c ≠ c2 := by
              intro hcc
              exact (List.nodup_cons.mp hnodup).1 (hcc ▸ hmem)
            obtain ⟨v2, hv2, hl2⟩ := ih _ h (List.nodup_cons.mp hnodup).2 hmem
            rw [cellOf_setCell_ne r c2 c v hne] at hv2
            exact ⟨v2, hv2, hl2⟩

theorem lookupJ_renameRow_fixed (r : Row) (c : String)
    (h1 : c ≠ "budget") (h2 : c ≠ "revenue")
    (h3 : c ≠ "budget_musd") (h4 : c ≠ "revenue_musd") :
    lookupJ c (renameRowFn r) = lookupJ c r := by
  induction r with
  | nil => rfl
  | cons p t ih =>
      obtain ⟨k, v⟩ := p
      unfold renameRowFn at ih ⊢
      rw [List.map_cons]
      show lookupJ c ((renameKey k, v) :: _) = _
      rw [lookupJ_cons, lookupJ_cons, ih]
      unfold renameKey
      by_cases hb : k = "budget"
      · rw [if_pos hb, hb]
        rw [if_neg (fun hh => h3 hh.symm), if_neg (fun hh => h1 hh.symm)]
      · rw [if_neg hb]
        by_cases hr : k = "revenue"
        · rw [if_pos hr, hr]
          rw [if_neg (fun hh => h4 hh.symm), if_neg (fun hh => h2 hh.symm)]
        · rw [if_neg hr]

theorem lookupJ_renameRow_bm (r : Row) (h : lookupJ "budget_musd" r = none) :
    lookupJ "budget_musd" (renameRowFn r) = lookupJ "budget" r := by
  induction r with
  | nil => rfl
  | cons p t ih =>
      obtain ⟨k, v⟩ := p
      rw [lookupJ_cons] at h
      unfold renameRowFn at ih ⊢
      rw [List.map_cons]
      show lookupJ _ ((renameKey k, v) :: _) = _
      rw [lookupJ_cons, lookupJ_cons]
      have hkbm : ¬ (k = "budget_musd") := by
        intro hk
        rw [if_pos hk] at h
        simp at h
      rw [if_neg hkbm] at h
      unfold renameKey
      by_cases hb : k = "budget"
      · rw [if_pos hb, if_pos rfl, if_pos hb]
      · rw [if_neg hb, if_neg hb]
        by_cases hr : k = "revenue"
        · rw [if_pos hr, if_neg (by decide)]
          exact ih h
        · rw [if_neg hr, if_neg hkbm]
          exact ih h

theorem lookupJ_renameRow_rm (r : Row) (h : lookupJ "revenue_musd" r = none) :
    lookupJ "revenue_musd" (renameRowFn r) = lookupJ "revenue" r := by
  induction r with
  | nil => rfl
  | cons p t ih =>
      obtain ⟨k, v⟩ := p
      rw [lookupJ_cons] at h
      unfold renameRowFn at ih ⊢
      rw [List.map_cons]
      show lookupJ _ ((renameKey k, v) :: _) = _
      rw [lookupJ_cons, lookupJ_cons]
      have hkrm : ¬ (k = "revenue_musd") := by
        intro hk
        rw [if_pos hk] at h
        simp at h
      rw [if_neg hkrm] at h
      unfold renameKey
      by_cases hb : k = "budget"
      · have : ¬ (k = "revenue") := by rw [hb]; decide
        rw [if_pos hb, if_neg (by decide), if_neg this]
        exact ih h
      · rw [if_neg hb]
        by_cases hr : k = "revenue"
        · rw [if_pos hr, if_pos rfl, if_pos hr]
        · rw [if_neg hr, if_neg hkrm, if_neg hr]
          exact ih h

theorem lookupJ_map_pair (l : List String) (g : String → JValue) (c : String) :
    lookupJ c (l.map (fun x => (x, g x))) = if c ∈ l then some (g c) else none := by
  induction l with
  | nil => rfl
  | cons x xs ih =>
      rw [List.map_cons, lookupJ_cons, ih]
      by_cases hx : x = c
      · subst hx
        rw [if_pos rfl, if_pos (List.mem_cons_self _ _)]
      · rw [if_neg hx]
        by_cases hm : c ∈ xs
        · rw [if_pos hm, if_pos (List.mem_cons_of_mem _ hm)]
        · rw [if_neg hm, if_neg (by
            intro hcc
            rcases List.mem_cons.mp hcc with h1 | h2
            · exact hx h1.symm
            · exact hm h2)]

theorem lookupJ_reindexRow (cols : List String) (r : Row) (c : String)
    (hc : c ∈ targetOrder) :
    lookupJ c (reindexRow cols r) =
      some (if cols.contains c then cellOf r c else .null) := by
  unfold reindexRow
  rw [lookupJ_map_pair targetOrder _ c, if_pos hc]

theorem lookupJ_textRow_ne (r : Row) (c : String) (h1 : c ≠ "overview")
    (h2 : c ≠ "tagline") : lookupJ c (textRow r) = lookupJ c r := by
  unfold textRow
  rw [lookupJ_setCell_ne _ _ _ _ h2, lookupJ_setCell_ne _ _ _ _ h1]

theorem lookupJ_voteRow_ne (r : Row) (c : String) (h : c ≠ "vote_average") :
    lookupJ c (voteRow r) = lookupJ c r := by
  unfold voteRow
  split
  · rw [lookupJ_setCell_ne _ _ _ _ h]
  · rfl

theorem lookupJ_unitRow_ne (r : Row) (c : String) (h1 : c ≠ "budget")
    (h2 : c ≠ "revenue") : lookupJ c (unitRow r) = lookupJ c r := by
  unfold unitRow
  rw [lookupJ_setCell_ne _ _ _ _ h2, lookupJ_setCell_ne _ _ _ _ h1]

theorem lookupJ_dateRow_ne (r : Row) (c : String) (h : c ≠ "release_date") :
    lookupJ c (dateRow r) = lookupJ c r := by
  unfold dateRow
  rw [lookupJ_setCell_ne _ _ _ _ h]

theorem lookupJ_zeroRow_ne (r : Row) (c : String)
    (h : ∀ c2 ∈ (["budget", "revenue", "runtime"] : List String), c ≠ c2) :
    lookupJ c (zeroRow r) = lookupJ c r := by
  unfold zeroRow
  exact foldl_setCellF_lookup_ne _ _ _ _ h

theorem lookupJ_numericRow_ne (r : Row) (c : String)
    (h : ∀ c2 ∈ numericCols, c ≠ c2) :
    lookupJ c (numericRow r) = lookupJ c r := by
  unfold numericRow
  exact foldl_setCellF_lookup_ne _ _ _ _ h

theorem lookupJ_zeroRow_mem (r : Row) (c : String)
    (hc : c ∈ (["budget", "revenue", "runtime"] : List String)) :
    lookupJ c (zeroRow r) = some (zeroToNull (cellOf r c)) := by
  unfold zeroRow
  exact foldl_setCellF_lookup_mem _ _ _ _ (by decide) hc

theorem lookupJ_numericRow_mem (r : Row) (c : String) (hc : c ∈ numericCols) :
    lookupJ c (numericRow r) = some (toNumeric (cellOf r c)) := by
  unfold numericRow
  exact foldl_setCellF_lookup_mem _ _ _ _ (by decide) hc

theorem lookupJ_unitRow_budget (r : Row) :
    lookupJ "budget" (unitRow r) = some (toMillions (cellOf r "budget")) := by
  unfold unitRow
  rw [lookupJ_setCell_ne _ _ _ _ (by decide), lookupJ_setCell_self]

theorem lookupJ_unitRow_revenue (r : Row) :
    lookupJ "revenue" (unitRow r) = some (toMillions (cellOf r "revenue")) := by
  unfold unitRow
  rw [lookupJ_setCell_self, cellOf_setCell_ne _ _ _ _ (by decide)]

theorem rowConvertE_eq (r : Row) :
    rowConvertE r = flattenRowE (dropKeysRow r) >>= (fun r2 => pure (rowPost r2)) := rfl

theorem rowConvertE_parts (rec rc : Row) (h : rowConvertE rec = .ok rc) :
    ∃ r2, flattenRowE (dropKeysRow rec) = .ok r2 ∧ rc = rowPost r2 := by
  rw [rowConvertE_eq] at h
  cases hf : flattenRowE (dropKeysRow rec) with
  | error e => rw [hf, error_bind] at h; simp at h
  | ok r2 =>
      rw [hf, ok_bind, pure_eq_ok] at h
      injection h with h2
      exact ⟨r2, rfl, h2.symm⟩

theorem cellOf_flatten_untouched (rec r2 : Row)
    (hf : flattenRowE (dropKeysRow rec) = .ok r2) (c : String)
    (hext : ∀ c2 ∈ extractedColumns, c ≠ c2)
    (hdrop : ∀ c2 ∈ colsToDrop, c ≠ c2) :
    lookupJ c r2 = lookupJ c rec := by
  unfold flattenRowE at hf
  rw [foldME_setCellE_lookup_ne extractedColumns flattenCellFn _ r2 hf c hext]
  unfold dropKeysRow
  exact foldl_dropKey_lookup_ne colsToDrop rec c hdrop

theorem rowConvert_money (rec rc : Row) (h : rowConvertE rec = .ok rc) :
    lookupJ "budget" rc = some (moneyConv (cellOf rec "budget")) ∧
    lookupJ "revenue" rc = some (moneyConv (cellOf rec "revenue")) ∧
    lookupJ "runtime" rc = some (runtimeConv (cellOf rec "runtime")) := by
  obtain ⟨r2, hf, heq⟩ := rowConvertE_parts rec rc h
  rw [heq]
  have hb2 : lookupJ "budget" r2 = lookupJ "budget" rec :=
    cellOf_flatten_untouched rec r2 hf _ (by decide) (by decide)
  have hr2 : lookupJ "revenue" r2 = lookupJ "revenue" rec :=
    cellOf_flatten_untouched rec r2 hf _ (by decide) (by decide)
  have ht2 : lookupJ "runtime" r2 = lookupJ "runtime" rec :=
    cellOf_flatten_untouched rec r2 hf _ (by decide) (by decide)
  unfold rowPost
  refine ⟨?_, ?_, ?_⟩
  · rw [lookupJ_textRow_ne _ _ (by decide) (by decide),
      lookupJ_voteRow_ne _ _ (by decide),
      lookupJ_unitRow_budget]
    have : cellOf (zeroRow (dateRow (numericRow r2))) "budget" =
        zeroToNull (cellOf (dateRow (numericRow r2)) "budget") := by
      unfold cellOf
      rw [lookupJ_zeroRow_mem _ _ (by decide)]
      rfl
    rw [this]
    have : cellOf (dateRow (numericRow r2)) "budget" =
        cellOf (numericRow r2) "budget" := by
      unfold cellOf
      rw [lookupJ_dateRow_ne _ _ (by decide)]
    rw [this]
    have : cellOf (numericRow r2) "budget" = toNumeric (cellOf r2 "budget") := by
      unfold cellOf
      rw [lookupJ_numericRow_mem _ _ (by decide)]
      rfl
    rw [this]
    have : cellOf r2 "budget" = cellOf rec "budget" := by
      unfold cellOf
      rw [hb2]
    rw [this]
    rfl
  · rw [lookupJ_textRow_ne _ _ (by decide) (by decide),
      lookupJ_voteRow_ne _ _ (by decide),
      lookupJ_unitRow_revenue]
    have : cellOf (zeroRow (dateRow (numericRow r2))) "revenue" =
        zeroToNull (cellOf (dateRow (numericRow r2)) "revenue") := by
      unfold cellOf
      rw [lookupJ_zeroRow_mem _ _ (by decide)]
      rfl
    rw [this]
    have : cellOf (dateRow (numericRow r2)) "revenue" =
        cellOf (numericRow r2) "revenue" := by
      unfold cellOf
      rw [lookupJ_dateRow_ne _ _ (by decide)]
    rw [this]
    have : cellOf (numericRow r2) "revenue" = toNumeric (cellOf r2 "revenue") := by
      unfold cellOf
      rw [lookupJ_numericRow_mem _ _ (by decide)]
      rfl
    rw [this]
    have : cellOf r2 "revenue" = cellOf rec "revenue" := by
      unfold cellOf
      rw [hr2]
    rw [this]
    rfl
  · rw [lookupJ_textRow_ne _ _ (by decide) (by decide),
      lookupJ_voteRow_ne _ _ (by decide),
      lookupJ_unitRow_ne _ _ (by decide) (by decide),
      lookupJ_zeroRow_mem _ _ (by decide)]
    have : cellOf (dateRow (numericRow r2)) "runtime" =
        cellOf (numericRow r2) "runtime" := by
      unfold cellOf
      rw [lookupJ_dateRow_ne _ _ (by decide)]
    rw [this]
    have : cellOf (numericRow r2) "runtime" = toNumeric (cellOf r2 "runtime") := by
      unfold cellOf
      rw [lookupJ_numericRow_mem _ _ (by decide)]
      rfl
    rw [this]
    have : cellOf r2 "runtime" = cellOf rec "runtime" := by
      unfold cellOf
      rw [ht2]
    rw [this]
    rfl

theorem rowConvert_credits (rec rc : Row) (h : rowConvertE rec = .ok rc) :
    ∃ cv, flattenListCell (cellOf rec "credits") = .ok cv ∧
      lookupJ "credits" rc = some cv := by
  obtain ⟨r2, hf, heq⟩ := rowConvertE_parts rec rc h
  rw [heq]
  unfold flattenRowE at hf
  obtain ⟨cv, hcv, hl⟩ := foldME_setCellE_lookup_mem extractedColumns flattenCellFn
    _ r2 hf "credits" (by decide) (by decide)
  refine ⟨cv, ?_, ?_⟩
  · have hfn : flattenCellFn "credits" = flattenListCell := by
      unfold flattenCellFn
      rw [if_neg (by decide)]
    rw [hfn] at hcv
    have : cellOf (dropKeysRow rec) "credits" = cellOf rec "credits" := by
      unfold cellOf dropKeysRow
      rw [foldl_dropKey_lookup_ne colsToDrop rec _ (by decide)]
    rw [this] at hcv
    exact hcv
  · unfold rowPost
    rw [lookupJ_textRow_ne _ _ (by decide) (by decide),
      lookupJ_voteRow_ne _ _ (by decide),
      lookupJ_unitRow_ne _ _ (by decide) (by decide),
      lookupJ_zeroRow_ne _ _ (by decide),
      lookupJ_dateRow_ne _ _ (by decide),
      lookupJ_numericRow_ne _ _ (by decide)]
    exact hl

theorem rowConvert_none (rec rc : Row) (h : rowConvertE rec = .ok rc) (c : String)
    (hext : ∀ c2 ∈ extractedColumns, c ≠ c2)
    (hnum : ∀ c2 ∈ numericCols, c ≠ c2)
    (hdrop : ∀ c2 ∈ colsToDrop, c ≠ c2)
    (hrd : c ≠ "release_date") (hov : c ≠ "overview") (htg : c ≠ "tagline")
    (h0 : lookupJ c rec = none) :
    lookupJ c rc = none := by
  obtain ⟨r2, hf, heq⟩ := rowConvertE_parts rec rc h
  rw [heq]
  unfold rowPost
  rw [lookupJ_textRow_ne _ _ hov htg,
    lookupJ_voteRow_ne _ _ (hnum "vote_average" (by decide)),
    lookupJ_unitRow_ne _ _ (hnum "budget" (by decide)) (hnum "revenue" (by decide)),
    lookupJ_zeroRow_ne _ _ (by
      intro c2 hc2
      have hc3 : c2 = "budget" ∨ c2 = "revenue" ∨ c2 = "runtime" := by simpa using hc2
      rcases hc3 with rfl | rfl | rfl
      · exact hnum "budget" (by decide)
      · exact hnum "revenue" (by decide)
      · exact hnum "runtime" (by decide)),
    lookupJ_dateRow_ne _ _ hrd,
    lookupJ_numericRow_ne _ _ hnum,
    cellOf_flatten_untouched rec r2 hf c hext hdrop]
  exact h0

/-- C1 counterexample: on a record whose row holds exactly ten non-null
cells with `status` among them, the Transformer as written keeps the row
(the 10-non-null threshold runs before the status filter and counts the
`status` column), while the claim's filter order — status filter and
status-column drop before the threshold — would leave only nine non-null
cells and drop the row.  The two orders produce different Clean Tables, so
the Transformer does not apply its quality filters in the claimed order. -/
theorem c1_filter_order_counterexample :
    (transform [exRecC1]).map (fun t => t.rows.length) = .ok 1 ∧
    (transformClaimOrder [exRecC1]).map (fun t => t.rows.length) = .ok 0 :=
  ⟨rfl, rfl⟩

/-- C2 (code bug): on the single-group input of the repository's own test
`test_franchise_analysis_single_category` — every `belongs_to_collection`
null, so only the "Standalone" group exists — the script's hardcoded
`franchise_stats.index = ['Standalone', 'Franchise']` raises a pandas
length-mismatch `ValueError` instead of returning the valid one-group
result that the spec and the test require. -/
theorem c2_franchise_single_group_raises :
    franchiseStats exC2 = .error "ValueError: Length mismatch" := rfl

/-- C3 (code bug): the pruning loop's guard is `if col in cols_to_drop`
(always true) instead of the existence check its own comment announces, so
a complete record that merely lacks a `homepage` field makes the
Transformer raise a `KeyError` instead of skipping the absent column. -/
theorem c3_drop_missing_column_raises :
    transform [exRec3] = .error "KeyError: homepage" := rfl

theorem dedup_keepFirst_aux (key : Row → JValue) (rows : List Row) :
    ∀ (seen : List JValue) (acc : List Row),
      (∀ k, seen.any (fun v => scalarEq v k) =
        acc.any (fun r2 => scalarEq (key r2) k)) →
      acc ++ dedupByKey key seen rows =
        rows.foldl (fun acc r =>
          if acc.any (fun r2 => scalarEq (key r2) (key r)) then acc
          else acc ++ [r]) acc := by
  induction rows with
  | nil =>
      intro seen acc _
      unfold dedupByKey
      simp
  | cons r rest ih =>
      intro seen acc hinv
      rw [List.foldl_cons]
      unfold dedupByKey
      rw [← hinv (key r)]
      by_cases hmem : seen.any (fun v => scalarEq v (key r)) = true
      · rw [if_pos hmem, if_pos hmem]
        exact ih seen acc hinv
      · rw [if_neg hmem, if_neg hmem]
        have hsplit : acc ++ r :: dedupByKey key (key r :: seen) rest =
            (acc ++ [r]) ++ dedupByKey key (key r :: seen) rest := by simp
        rw [hsplit]
        refine ih (key r :: seen) (acc ++ [r]) ?_
        intro k
        rw [List.any_cons, List.any_append, List.any_cons, List.any_nil, hinv k]
        cases scalarEq (key r) k <;>
          cases acc.any (fun r2 => scalarEq (key r2) k) <;> rfl

theorem dedupByKey_eq_keepFirst (rows : List Row) :
    dedupByKey (fun r => cellOf r "id") [] rows = keepFirstById rows := by
  have h := dedup_keepFirst_aux (fun r => cellOf r "id") rows [] []
    (fun k => rfl)
  rw [List.nil_append] at h
  exact h

theorem idTitleStage_pos (t : Table) (h1 : t.cols.contains "id" = true)
    (h2 : t.cols.contains "title" = true) :
    idTitleStage t = .ok ⟨t.cols, t.rows.filter (fun r =>
      !(scalarEq (cellOf r "id") .null) && !(scalarEq (cellOf r "title") .null))⟩ := by
  unfold idTitleStage
  rw [h1, h2]
  rfl

theorem dedupStage_pos (t : Table) (h : t.cols.contains "id" = true) :
    dedupStage t = .ok ⟨t.cols, dedupByKey (fun r => cellOf r "id") [] t.rows⟩ := by
  unfold dedupStage
  rw [h]
  rfl

theorem statusStage_pos (t : Table) (h : t.cols.contains "status" = true) :
    statusStage t = .ok ⟨t.cols.erase "status",
      (t.rows.filter (fun r =>
        scalarEq (cellOf r "status") (.str "Released"))).map (dropKeyRow "status")⟩ := by
  simp only [statusStage, dropColumnE]
  rw [h]
  rfl

theorem statusStage_neg (t : Table) (h : t.cols.contains "status" = false) :
    statusStage t = .error "KeyError: status" := by
  unfold statusStage
  rw [h]
  rfl

/-- C1 amended: the Transformer's quality filters run in the source order —
drop null `id`/`title`, deduplicate by `id` keeping the first occurrence,
drop rows with fewer than 10 non-null values counted across ALL columns
present at that point (the `status` column included), and only then keep
`status == "Released"` rows and drop the `status` column.
`transformAmendedSpec` spells exactly that order in spec style (with a
left-fold keep-first dedup), and the Transformer agrees with it on every
input that produces a Clean Table. -/
theorem c1_filter_order_amended (rs : List Row) (t : Table) :
    transform rs = .ok t ↔ transformAmendedSpec rs = .ok t := by
  unfold transform beforeReindex transformAmendedSpec
  cases hu : convertStages rs with
  | error e =>
      simp only [error_bind]
  | ok u =>
      simp only [ok_bind]
      cases hid : u.cols.contains "id" with
      | false =>
          have hL : idTitleStage u = .error "KeyError: id/title" := by
            unfold idTitleStage
            rw [hid]
            rfl
          rw [hL]
          simp only [error_bind, hid, Bool.false_and, Bool.and_false]
          simp
      | true =>
      cases htl : u.cols.contains "title" with
      | false =>
          have hL : idTitleStage u = .error "KeyError: id/title" := by
            unfold idTitleStage
            rw [hid, htl]
            rfl
          rw [hL]
          simp only [error_bind, hid, htl, Bool.false_and, Bool.and_false,
            Bool.true_and]
          simp
      | true =>
      rw [idTitleStage_pos u hid htl, ok_bind,
        dedupStage_pos _ (by exact hid), ok_bind, threshStage_eq, ok_bind]
      cases hst : u.cols.contains "status" with
      | false =>
          rw [statusStage_neg _ (by exact hst), error_bind, error_bind]
          simp only [hid, htl, hst, Bool.and_false, Bool.true_and]
          simp
      | true =>
          rw [statusStage_pos _ (by exact hst), ok_bind, pure_eq_ok, ok_bind]
          simp only [hid, htl, hst, Bool.and_self, Bool.true_and, if_true]
          rw [dedupByKey_eq_keepFirst]
          exact Iff.rfl

theorem reindexRow_keys (cols : List String) (r : Row) :
    (reindexRow cols r).map Prod.fst = targetOrder := by
  unfold reindexRow
  rw [List.map_map]
  trans targetOrder.map (fun c => c)
  · exact List.map_congr_left (fun c _ => rfl)
  · exact List.map_id' targetOrder

/-- C4: the Transformer's final stage reindexes the working table to the
fixed target column order: the output column list is exactly
`targetOrder`; the rows are the working rows rebuilt in place (so the
positional row index stays a dense 0-based sequence); every rebuilt row
carries exactly the target columns in the contract order (any working
column outside the target list is dropped); and a target column absent
from the working table is created as a null cell in every row. -/
theorem c4_schema_enforcement (rs : List Row) (t : Table)
    (h : transform rs = .ok t) :
    t.cols = targetOrder ∧
    ∃ w, beforeReindex rs = .ok w ∧
      t.rows = w.rows.map (reindexRow w.cols) ∧
      ∀ r0 ∈ w.rows,
        (reindexRow w.cols r0).map Prod.fst = targetOrder ∧
        ∀ c ∈ targetOrder, w.cols.contains c = false →
          lookupJ c (reindexRow w.cols r0) = some .null := by
  unfold transform at h
  cases hb : beforeReindex rs with
  | error e => rw [hb, error_bind] at h; simp at h
  | ok w =>
      rw [hb, ok_bind] at h
      obtain ⟨_, r2, r3⟩ := reindexStage_ok w t h
      refine ⟨r2, w, rfl, r3, ?_⟩
      intro r0 _
      refine ⟨reindexRow_keys w.cols r0, ?_⟩
      intro c hc hfalse
      rw [lookupJ_reindexRow w.cols r0 c hc, hfalse]
      rfl

/-- Witness for C4 at a concrete record that survives the whole pipeline. -/
theorem c4_schema_enforcement_witness :
    tFull.cols = targetOrder ∧
    ∃ w, beforeReindex [exRecFull] = .ok w ∧
      tFull.rows = w.rows.map (reindexRow w.cols) ∧
      ∀ r0 ∈ w.rows,
        (reindexRow w.cols r0).map Prod.fst = targetOrder ∧
        ∀ c ∈ targetOrder, w.cols.contains c = false →
          lookupJ c (reindexRow w.cols r0) = some .null :=
  c4_schema_enforcement [exRecFull] tFull rfl

theorem transform_row_provenance (rs : List Row) (t : Table)
    (h : transform rs = .ok t) :
    ∃ u, convertStages rs = .ok u ∧
      (∀ c ∈ numericCols, u.cols.contains c = true) ∧
      (∀ c ∈ extractedColumns, u.cols.contains c = true) ∧
      ∀ r ∈ t.rows, ∃ rec ∈ rs, ∃ rq, rowConvertE rec = .ok rq ∧
        r = reindexRow ((u.cols.erase "status").map renameKey)
            (renameRowFn (dropKeyRow "status" rq)) := by
  obtain ⟨u, hu, hmap, _, _, _, _, _, hrows⟩ := transform_ok_struct rs t h
  obtain ⟨_, _, hnum, hext⟩ := convertStages_ok rs u hu
  refine ⟨u, hu, hnum, hext, ?_⟩
  intro r hr
  rw [hrows] at hr
  obtain ⟨rq, hrq, hreq⟩ := List.mem_map.mp hr
  have hqu : rq ∈ u.rows := qualityRows_subset u.cols u.rows rq hrq
  obtain ⟨rec, hrec, hconv⟩ := mapME_ok_mem_right rowConvertE rs u.rows hmap rq hqu
  exact ⟨rec, hrec, rq, hconv, hreq.symm⟩

theorem final_budget_musd (ucols : List String) (rq : Row)
    (hb : ucols.contains "budget" = true)
    (hnone : lookupJ "budget_musd" rq = none) (v : JValue)
    (hv : lookupJ "budget" rq = some v) :
    lookupJ "budget_musd" (reindexRow ((ucols.erase "status").map renameKey)
      (renameRowFn (dropKeyRow "status" rq))) = some v := by
  have h1 : "budget" ∈ ucols := by simpa using hb
  have h2 : "budget" ∈ ucols.erase "status" := (List.mem_erase_of_ne (by decide)).mpr h1
  have hmem : "budget_musd" ∈ (ucols.erase "status").map renameKey :=
    List.mem_map.mpr ⟨"budget", h2, rfl⟩
  have hcontains : ((ucols.erase "status").map renameKey).contains "budget_musd" = true := by
    simpa using hmem
  rw [lookupJ_reindexRow _ _ _ (by decide), hcontains, if_pos rfl]
  unfold cellOf
  rw [lookupJ_renameRow_bm _ (by
      rw [lookupJ_dropKey_ne _ _ _ (by decide)]
      exact hnone),
    lookupJ_dropKey_ne _ _ _ (by decide), hv]
  rfl

theorem final_revenue_musd (ucols : List String) (rq : Row)
    (hb : ucols.contains "revenue" = true)
    (hnone : lookupJ "revenue_musd" rq = none) (v : JValue)
    (hv : lookupJ "revenue" rq = some v) :
    lookupJ "revenue_musd" (reindexRow ((ucols.erase "status").map renameKey)
      (renameRowFn (dropKeyRow "status" rq))) = some v := by
  have h1 : "revenue" ∈ ucols := by simpa using hb
  have h2 : "revenue" ∈ ucols.erase "status" := (List.mem_erase_of_ne (by decide)).mpr h1
  have hmem : "revenue_musd" ∈ (ucols.erase "status").map renameKey :=
    List.mem_map.mpr ⟨"revenue", h2, rfl⟩
  have hcontains : ((ucols.erase "status").map renameKey).contains "revenue_musd" = true := by
    simpa using hmem
  rw [lookupJ_reindexRow _ _ _ (by decide), hcontains, if_pos rfl]
  unfold cellOf
  rw [lookupJ_renameRow_rm _ (by
      rw [lookupJ_dropKey_ne _ _ _ (by decide)]
      exact hnone),
    lookupJ_dropKey_ne _ _ _ (by decide), hv]
  rfl

theorem final_fixed_col (ucols : List String) (rq : Row) (c : String)
    (hc : c ∈ targetOrder)
    (h1 : c ≠ "budget") (h2 : c ≠ "revenue")
    (h3 : c ≠ "budget_musd") (h4 : c ≠ "revenue_musd") (h5 : c ≠ "status")
    (hb : ucols.contains c = true) (v : JValue)
    (hv : lookupJ c rq = some v) :
    lookupJ c (reindexRow ((ucols.erase "status").map renameKey)
      (renameRowFn (dropKeyRow "status" rq))) = some v := by
  have hm1 : c ∈ ucols := by simpa using hb
  have hm2 : c ∈ ucols.erase "status" := (List.mem_erase_of_ne h5).mpr hm1
  have hrk : renameKey c = c := by
    unfold renameKey
    rw [if_neg h1, if_neg h2]
  have hmem : c ∈ (ucols.erase "status").map renameKey :=
    List.mem_map.mpr ⟨c, hm2, hrk⟩
  have hcontains : ((ucols.erase "status").map renameKey).contains c = true := by
    simpa using hmem
  rw [lookupJ_reindexRow _ _ _ hc, hcontains, if_pos rfl]
  unfold cellOf
  rw [lookupJ_renameRow_fixed _ _ h1 h2 h3 h4, lookupJ_dropKey_ne _ _ _ h5, hv]
  rfl

/-- C6: for every raw record that survives into the Clean Table, the
Transformer has replaced a literal zero in `budget`/`revenue`/`runtime`
with null, divided `budget` and `revenue` by 1,000,000 and renamed them to
`budget_musd`/`revenue_musd` — each output row's cells are exactly
`moneyConv`/`runtimeConv` of its source record's raw cells.  In
particular `budget = 1_000_000` yields `budget_musd = 1.0` and
`budget = 0` yields a null `budget_musd`.  (Raw records never carry the
post-rename names `budget_musd`/`revenue_musd` themselves; the `hwf`
hypothesis records that.) -/
theorem c6_zero_to_null_and_millions (rs : List Row) (t : Table)
    (h : transform rs = .ok t)
    (hwf : ∀ rec ∈ rs, lookupJ "budget_musd" rec = none ∧
      lookupJ "revenue_musd" rec = none) :
    (∀ r ∈ t.rows, ∃ rec ∈ rs,
      lookupJ "budget_musd" r = some (moneyConv (cellOf rec "budget")) ∧
      lookupJ "revenue_musd" r = some (moneyConv (cellOf rec "revenue")) ∧
      lookupJ "runtime" r = some (runtimeConv (cellOf rec "runtime"))) ∧
    moneyConv (.num 1000000) = .num 1 ∧ moneyConv (.num 0) = .null := by
  obtain ⟨u, _, hnum, _, hprov⟩ := transform_row_provenance rs t h
  refine ⟨?_, by norm_num [moneyConv, toNumeric, zeroToNull, toMillions], rfl⟩
  intro r hr
  obtain ⟨rec, hrec, rq, hconv, rfl⟩ := hprov r hr
  obtain ⟨hb, hv, ht⟩ := rowConvert_money rec rq hconv
  refine ⟨rec, hrec, ?_, ?_, ?_⟩
  · exact final_budget_musd u.cols rq (hnum "budget" (by decide))
      (rowConvert_none rec rq hconv "budget_musd" (by decide) (by decide)
        (by decide) (by decide) (by decide) (by decide) (hwf rec hrec).1)
      _ hb
  · exact final_revenue_musd u.cols rq (hnum "revenue" (by decide))
      (rowConvert_none rec rq hconv "revenue_musd" (by decide) (by decide)
        (by decide) (by decide) (by decide) (by decide) (hwf rec hrec).2)
      _ hv
  · exact final_fixed_col u.cols rq "runtime" (by decide) (by decide) (by decide)
      (by decide) (by decide) (by decide) (hnum "runtime" (by decide)) _ ht

/-- Witness for C6: the end-to-end record with `budget = 1_000_000`. -/
theorem c6_zero_to_null_and_millions_witness :
    (∀ r ∈ tFull.rows, ∃ rec ∈ [exRecFull],
      lookupJ "budget_musd" r = some (moneyConv (cellOf rec "budget")) ∧
      lookupJ "revenue_musd" r = some (moneyConv (cellOf rec "revenue")) ∧
      lookupJ "runtime" r = some (runtimeConv (cellOf rec "runtime"))) ∧
    moneyConv (.num 1000000) = .num 1 ∧ moneyConv (.num 0) = .null :=
  c6_zero_to_null_and_millions [exRecFull] tFull rfl
    (by
      intro rec hrec
      rcases List.mem_singleton.mp hrec with rfl
      exact ⟨rfl, rfl⟩)

theorem moneyConv_ne_zero (v : JValue) : moneyConv v ≠ .num 0 := by
  cases v with
  | num q =>
      by_cases hq : q = 0
      · subst hq
        exact fun hh => JValue.noConfusion (show JValue.null = JValue.num 0 from hh)
      · intro hcontra
        simp only [moneyConv, toNumeric, zeroToNull, if_neg hq, toMillions] at hcontra
        injection hcontra with h2
        rw [div_eq_zero_iff] at h2
        rcases h2 with h2 | h2
        · exact hq h2
        · norm_num at h2
  | bool b =>
      cases b with
      | false =>
          exact fun hh => JValue.noConfusion (show JValue.null = JValue.num 0 from hh)
      | true =>
          intro hcontra
          have hcontra2 : JValue.num (1 / 1000000) = JValue.num 0 := hcontra
          injection hcontra2 with h2
          norm_num at h2
  | null => exact fun hh => JValue.noConfusion (show JValue.null = JValue.num 0 from hh)
  | str s => exact fun hh => JValue.noConfusion (show JValue.null = JValue.num 0 from hh)
  | obj fs => exact fun hh => JValue.noConfusion (show JValue.null = JValue.num 0 from hh)
  | arr xs => exact fun hh => JValue.noConfusion (show JValue.null = JValue.num 0 from hh)
  | posInf => exact fun hh => JValue.noConfusion (show JValue.null = JValue.num 0 from hh)
  | negInf => exact fun hh => JValue.noConfusion (show JValue.null = JValue.num 0 from hh)

theorem jdiv_null_right (a : JValue) : jdiv a .null = .null := by
  cases a <;> rfl

theorem jdiv_ne_inf (a b : JValue) (hb : b ≠ .num 0) :
    jdiv a b ≠ .posInf ∧ jdiv a b ≠ .negInf := by
  cases a <;> cases b <;>
    first
      | exact ⟨fun hh => JValue.noConfusion hh, fun hh => JValue.noConfusion hh⟩
      | (rename_i qa qb
         have hqb : qb ≠ 0 := fun hh => hb (by rw [hh])
         refine ⟨?_, ?_⟩ <;>
           (simp only [jdiv, if_neg hqb]
            exact fun hh => JValue.noConfusion hh))

theorem addKPIs_ok (t t2 : Table) (hk : addKPIs t = .ok t2) :
    t2.rows = t.rows.map (fun r =>
      setCell (setCell r "profit_musd"
          (jsub (cellOf r "revenue_musd") (cellOf r "budget_musd"))) "roi"
        (jdiv
          (cellOf (setCell r "profit_musd"
            (jsub (cellOf r "revenue_musd") (cellOf r "budget_musd"))) "revenue_musd")
          (cellOf (setCell r "profit_musd"
            (jsub (cellOf r "revenue_musd") (cellOf r "budget_musd"))) "budget_musd"))) := by
  unfold addKPIs at hk
  split at hk
  · cases hk
    rfl
  · simp at hk

theorem kpi_cells (r : Row) :
    cellOf (setCell (setCell r "profit_musd"
        (jsub (cellOf r "revenue_musd") (cellOf r "budget_musd"))) "roi"
      (jdiv
        (cellOf (setCell r "profit_musd"
          (jsub (cellOf r "revenue_musd") (cellOf r "budget_musd"))) "revenue_musd")
        (cellOf (setCell r "profit_musd"
          (jsub (cellOf r "revenue_musd") (cellOf r "budget_musd"))) "budget_musd")))
      "roi" = jdiv (cellOf r "revenue_musd") (cellOf r "budget_musd") ∧
    cellOf (setCell (setCell r "profit_musd"
        (jsub (cellOf r "revenue_musd") (cellOf r "budget_musd"))) "roi"
      (jdiv
        (cellOf (setCell r "profit_musd"
          (jsub (cellOf r "revenue_musd") (cellOf r "budget_musd"))) "revenue_musd")
        (cellOf (setCell r "profit_musd"
          (jsub (cellOf r "revenue_musd") (cellOf r "budget_musd"))) "budget_musd")))
      "budget_musd" = cellOf r "budget_musd" ∧
    cellOf (setCell (setCell r "profit_musd"
        (jsub (cellOf r "revenue_musd") (cellOf r "budget_musd"))) "roi"
      (jdiv
        (cellOf (setCell r "profit_musd"
          (jsub (cellOf r "revenue_musd") (cellOf r "budget_musd"))) "revenue_musd")
        (cellOf (setCell r "profit_musd"
          (jsub (cellOf r "revenue_musd") (cellOf r "budget_musd"))) "budget_musd")))
      "revenue_musd" = cellOf r "revenue_musd" := by
  refine ⟨?_, ?_, ?_⟩
  · rw [cellOf_setCell_self,
      cellOf_setCell_ne _ _ _ _ (by decide), cellOf_setCell_ne _ _ _ _ (by decide)]
  · rw [cellOf_setCell_ne _ _ _ _ (by decide), cellOf_setCell_ne _ _ _ _ (by decide)]
  · rw [cellOf_setCell_ne _ _ _ _ (by decide), cellOf_setCell_ne _ _ _ _ (by decide)]

/-- C5 counterexample: the claim "roi is null whenever `budget_musd` is
null or not positive" fails on the code at a record with a negative raw
budget (`budget = -2_000_000`): the pipeline keeps the negative budget
(`budget_musd = -2`), and `roi = revenue_musd / budget_musd = -1`, a
non-null value at a non-positive budget. -/
theorem c5_roi_counterexample : ¬ roiClaimC5 := by
  intro hclaim
  have h := hclaim [exRecNeg] tNeg tNegK rfl rfl
  obtain ⟨u, _, hnum, _, hprov⟩ := transform_row_provenance [exRecNeg] tNeg rfl
  have hr : tNeg.rows.headD [] ∈ tNeg.rows := List.mem_cons_self _ _
  obtain ⟨rec, hrec, rq, hconv, hreq⟩ := hprov _ hr
  have hrec2 : rec = exRecNeg := List.mem_singleton.mp hrec
  subst hrec2
  obtain ⟨hb, hv, _⟩ := rowConvert_money exRecNeg rq hconv
  have hfb := final_budget_musd u.cols rq (hnum "budget" (by decide))
    (rowConvert_none exRecNeg rq hconv "budget_musd" (by decide) (by decide)
      (by decide) (by decide) (by decide) (by decide) rfl) _ hb
  have hfr := final_revenue_musd u.cols rq (hnum "revenue" (by decide))
    (rowConvert_none exRecNeg rq hconv "revenue_musd" (by decide) (by decide)
      (by decide) (by decide) (by decide) (by decide) rfl) _ hv
  have hcb : cellOf (tNeg.rows.headD []) "budget_musd" = moneyConv (.num (-2000000)) := by
    unfold cellOf
    rw [hreq, hfb]
    rfl
  have hcr : cellOf (tNeg.rows.headD []) "revenue_musd" = moneyConv (.num 2000000) := by
    unfold cellOf
    rw [hreq, hfr]
    rfl
  have hK := addKPIs_ok tNeg tNegK rfl
  have hmemK : (setCell (setCell (tNeg.rows.headD []) "profit_musd"
      (jsub (cellOf (tNeg.rows.headD []) "revenue_musd")
        (cellOf (tNeg.rows.headD []) "budget_musd"))) "roi"
      (jdiv
        (cellOf (setCell (tNeg.rows.headD []) "profit_musd"
          (jsub (cellOf (tNeg.rows.headD []) "revenue_musd")
            (cellOf (tNeg.rows.headD []) "budget_musd"))) "revenue_musd")
        (cellOf (setCell (tNeg.rows.headD []) "profit_musd"
          (jsub (cellOf (tNeg.rows.headD []) "revenue_musd")
            (cellOf (tNeg.rows.headD []) "budget_musd"))) "budget_musd"))) ∈ tNegK.rows := by
    rw [hK]
    exact List.mem_map_of_mem _ hr
  have h2 := h _ hmemK
  obtain ⟨k1, k2, k3⟩ := kpi_cells (tNeg.rows.headD [])
  have hnp : nonPosOrNull (cellOf (setCell (setCell (tNeg.rows.headD []) "profit_musd"
      (jsub (cellOf (tNeg.rows.headD []) "revenue_musd")
        (cellOf (tNeg.rows.headD []) "budget_musd"))) "roi"
      (jdiv
        (cellOf (setCell (tNeg.rows.headD []) "profit_musd"
          (jsub (cellOf (tNeg.rows.headD []) "revenue_musd")
            (cellOf (tNeg.rows.headD []) "budget_musd"))) "revenue_musd")
        (cellOf (setCell (tNeg.rows.headD []) "profit_musd"
          (jsub (cellOf (tNeg.rows.headD []) "revenue_musd")
            (cellOf (tNeg.rows.headD []) "budget_musd"))) "budget_musd"))) "budget_musd")
      = true := by
    rw [k2, hcb]
    norm_num [moneyConv, toNumeric, zeroToNull, toMillions, nonPosOrNull]
  have hroi := h2.1 hnp
  rw [k1, hcb, hcr] at hroi
  rw [show moneyConv (.num 2000000) = .num 2 by
      norm_num [moneyConv, toNumeric, zeroToNull, toMillions],
    show moneyConv (.num (-2000000)) = .num (-2) by
      norm_num [moneyConv, toNumeric, zeroToNull, toMillions],
    show jdiv (.num 2) (.num (-2)) = .num (-1) by
      norm_num [jdiv]] at hroi
  exact JValue.noConfusion hroi

/-- C5 amended: on the KPI-enriched Clean Table, `roi` is exactly the
elementwise `revenue_musd / budget_musd`; `budget_musd` is never the
literal 0 (zero budgets were replaced by null upstream), so the division
cannot produce an infinity; and a null `budget_musd` forces a null `roi`.
(The claim's stronger "null whenever not positive" clause fails for
negative budgets — see the counterexample.) -/
theorem c5_roi_amended (rs : List Row) (t t2 : Table) (h : transform rs = .ok t)
    (hk : addKPIs t = .ok t2)
    (hwf : ∀ rec ∈ rs, lookupJ "budget_musd" rec = none ∧
      lookupJ "revenue_musd" rec = none) :
    ∀ r2 ∈ t2.rows,
      cellOf r2 "roi" = jdiv (cellOf r2 "revenue_musd") (cellOf r2 "budget_musd") ∧
      cellOf r2 "budget_musd" ≠ .num 0 ∧
      (cellOf r2 "budget_musd" = .null → cellOf r2 "roi" = .null) ∧
      cellOf r2 "roi" ≠ .posInf ∧ cellOf r2 "roi" ≠ .negInf := by
  obtain ⟨u, _, hnum, _, hprov⟩ := transform_row_provenance rs t h
  intro r2 hr2
  rw [addKPIs_ok t t2 hk] at hr2
  obtain ⟨r, hr, rfl⟩ := List.mem_map.mp hr2
  obtain ⟨rec, hrec, rq, hconv, rfl⟩ := hprov r hr
  obtain ⟨hb, _, _⟩ := rowConvert_money rec rq hconv
  have hbudcell : cellOf (reindexRow ((u.cols.erase "status").map renameKey)
      (renameRowFn (dropKeyRow "status" rq))) "budget_musd" =
      moneyConv (cellOf rec "budget") := by
    unfold cellOf
    rw [final_budget_musd u.cols rq (hnum "budget" (by decide))
      (rowConvert_none rec rq hconv "budget_musd" (by decide) (by decide)
        (by decide) (by decide) (by decide) (by decide) (hwf rec hrec).1)
      _ hb]
    rfl
  obtain ⟨k1, k2, k3⟩ := kpi_cells (reindexRow ((u.cols.erase "status").map renameKey)
    (renameRowFn (dropKeyRow "status" rq)))
  have hbne : cellOf (reindexRow ((u.cols.erase "status").map renameKey)
      (renameRowFn (dropKeyRow "status" rq))) "budget_musd" ≠ .num 0 := by
    rw [hbudcell]
    exact moneyConv_ne_zero _
  refine ⟨?_, ?_, ?_, ?_, ?_⟩
  · rw [k1, k2, k3]
  · rw [k2]
    exact hbne
  · intro hnull
    rw [k2] at hnull
    rw [k1, hnull, jdiv_null_right]
  · rw [k1]
    exact (jdiv_ne_inf _ _ hbne).1
  · rw [k1]
    exact (jdiv_ne_inf _ _ hbne).2

/-- Witness for the amended C5 at the negative-budget record. -/
theorem c5_roi_amended_witness :
    cellOf (tNegK.rows.headD []) "roi"
      = jdiv (cellOf (tNegK.rows.headD []) "revenue_musd")
          (cellOf (tNegK.rows.headD []) "budget_musd") ∧
    cellOf (tNegK.rows.headD []) "budget_musd" ≠ .num 0 ∧
    (cellOf (tNegK.rows.headD []) "budget_musd" = .null →
      cellOf (tNegK.rows.headD []) "roi" = .null) ∧
    cellOf (tNegK.rows.headD []) "roi" ≠ .posInf ∧
    cellOf (tNegK.rows.headD []) "roi" ≠ .negInf :=
  c5_roi_amended [exRecNeg] tNeg tNegK rfl rfl
    (by
      intro rec hrec
      rcases List.mem_singleton.mp hrec with rfl
      exact ⟨rfl, rfl⟩)
    (tNegK.rows.headD []) (List.mem_cons_self _ _)

theorem elemName_spec (x : JValue) (h : WFNamed x) : elemName x = .ok (elemNameD x) := by
  obtain ⟨gs, s, rfl, hn⟩ := h
  simp only [elemName, elemNameD, hn]

theorem flattenListCell_spec (v : JValue) (h : WFListCell v) :
    flattenListCell v = .ok (specFlattenList v) := by
  cases v with
  | arr xs =>
      have hmap : mapME elemName xs = .ok (xs.map elemNameD) :=
        mapME_ok_of_forall _ _ _ (fun x hx => elemName_spec x (h xs rfl x hx))
      simp only [flattenListCell, specFlattenList, hmap, ok_bind]
  | null => rfl
  | num q => rfl
  | str s => rfl
  | bool b => rfl
  | obj fs => rfl
  | posInf => rfl
  | negInf => rfl

theorem flattenCollection_spec (v : JValue) (h : WFCollection v) :
    flattenCollection v = .ok (specFlattenCollection v) := by
  cases v with
  | obj fs =>
      have h2 := h fs rfl
      cases hn : lookupJ "name" fs with
      | none => rw [hn] at h2; simp at h2
      | some w => simp only [flattenCollection, specFlattenCollection, hn, Option.getD_some]
  | null => rfl
  | num q => rfl
  | str s => rfl
  | bool b => rfl
  | arr xs => rfl
  | posInf => rfl
  | negInf => rfl

theorem foldME_flatten_agree (cs : List String) (r : Row) (hnd : cs.Nodup)
    (hwf : ∀ c ∈ cs, flattenCellFn c (cellOf r c) = .ok (specCellFn c (cellOf r c))) :
    foldME (fun r c => do
      let v ← flattenCellFn c (cellOf r c)
      return setCell r c v) r cs
    = .ok (cs.foldl (fun r c => setCell r c (specCellFn c (cellOf r c))) r) := by
  induction cs generalizing r with
  | nil => rfl
  | cons c cs ih =>
      unfold foldME
      rw [hwf c (List.mem_cons_self _ _), ok_bind, pure_eq_ok, ok_bind, List.foldl_cons]
      refine ih (setCell r c (specCellFn c (cellOf r c))) (List.nodup_cons.mp hnd).2 ?_
      intro c2 hc2
      have hne : c2 ≠ c := fun hcc => (List.nodup_cons.mp hnd).1 (hcc ▸ hc2)
      rw [cellOf_setCell_ne r c c2 _ hne]
      exact hwf c2 (List.mem_cons_of_mem _ hc2)

theorem specFlattenRow_eq (r : Row) :
    specFlattenRow r
    = extractedColumns.foldl (fun r c => setCell r c (specCellFn c (cellOf r c))) r := by
  simp only [specFlattenRow, specCellFn]

theorem flattenRowE_spec (r : Row)
    (hwfc : WFCollection (cellOf r "belongs_to_collection"))
    (hwfl : ∀ c ∈ ["genres", "spoken_languages", "production_countries",
      "production_companies", "credits"], WFListCell (cellOf r c)) :
    flattenRowE r = .ok (specFlattenRow r) := by
  rw [specFlattenRow_eq]
  refine foldME_flatten_agree extractedColumns r (by decide) ?_
  intro c hc
  have hc2 : c = "belongs_to_collection" ∨ c = "genres" ∨ c = "spoken_languages"
      ∨ c = "production_countries" ∨ c = "production_companies" ∨ c = "credits" := by
    simpa [extractedColumns] using hc
  rcases hc2 with rfl | rfl | rfl | rfl | rfl | rfl
  · simp only [flattenCellFn, specCellFn, if_true]
    exact flattenCollection_spec _ hwfc
  · simp only [flattenCellFn, specCellFn, if_false]
    exact flattenListCell_spec _ (hwfl _ (by decide))
  · simp only [flattenCellFn, specCellFn, if_false]
    exact flattenListCell_spec _ (hwfl _ (by decide))
  · simp only [flattenCellFn, specCellFn, if_false]
    exact flattenListCell_spec _ (hwfl _ (by decide))
  · simp only [flattenCellFn, specCellFn, if_false]
    exact flattenListCell_spec _ (hwfl _ (by decide))
  · simp only [flattenCellFn, specCellFn, if_false]
    exact flattenListCell_spec _ (hwfl _ (by decide))

/-- C7: for every raw record whose nested cells have the §3 shapes (a
keyed `belongs_to_collection` carries a `name`; list cells hold keyed
elements with string `name`s), the flattening stage maps
`belongs_to_collection` to its `name` value (null when not a keyed
structure) and each list-valued nested field to the pipe-joined sequence
of its elements' `name`s in source order (null when absent or not a
list): row-level flattening equals the spec-modelled `specFlattenRow`;
moreover a `genres` list `[{name: Action}, {name: Sci-Fi}]` flattens to
the string `"Action|Sci-Fi"`, every non-list cell flattens to null, and
every non-keyed collection cell flattens to null. -/
theorem c7_flattening (r : Row)
    (hwfc : WFCollection (cellOf r "belongs_to_collection"))
    (hwfl : ∀ c ∈ ["genres", "spoken_languages", "production_countries",
      "production_companies", "credits"], WFListCell (cellOf r c)) :
    flattenRowE r = .ok (specFlattenRow r)
    ∧ flattenListCell (.arr [.obj [("name", .str "Action")],
        .obj [("name", .str "Sci-Fi")]]) = .ok (.str "Action|Sci-Fi")
    ∧ (∀ v : JValue, (∀ xs, v ≠ .arr xs) → flattenListCell v = .ok .null)
    ∧ (∀ v : JValue, (∀ fs, v ≠ .obj fs) → flattenCollection v = .ok .null) := by
  refine ⟨flattenRowE_spec r hwfc hwfl, rfl, ?_, ?_⟩
  · intro v hv
    cases v with
    | arr xs => exact absurd rfl (hv xs)
    | null => rfl
    | num q => rfl
    | str s => rfl
    | bool b => rfl
    | obj fs => rfl
    | posInf => rfl
    | negInf => rfl
  · intro v hv
    cases v with
    | obj fs => exact absurd rfl (hv fs)
    | null => rfl
    | num q => rfl
    | str s => rfl
    | bool b => rfl
    | arr xs => rfl
    | posInf => rfl
    | negInf => rfl

/-- The C7 theorem applied to the concrete record `exRecFull`. -/
theorem c7_flattening_witness :
    flattenRowE exRecFull = .ok (specFlattenRow exRecFull) := by
  have hwfc : WFCollection (cellOf exRecFull "belongs_to_collection") := by
    intro fs hf
    injection hf with h
    subst h
    rfl
  have hwfl : ∀ c ∈ ["genres", "spoken_languages", "production_countries",
      "production_companies", "credits"], WFListCell (cellOf exRecFull c) := by
    intro c hc
    have hc2 : c = "genres" ∨ c = "spoken_languages" ∨ c = "production_countries"
        ∨ c = "production_companies" ∨ c = "credits" := by simpa using hc
    rcases hc2 with rfl | rfl | rfl | rfl | rfl
    · intro xs hx x hxx
      injection hx with h
      subst h
      have hx2 : x = JValue.obj [("name", JValue.str "Action")]
          ∨ x = JValue.obj [("name", JValue.str "Sci-Fi")] := by simpa using hxx
      rcases hx2 with rfl | rfl
      · exact ⟨[("name", JValue.str "Action")], "Action", rfl, rfl⟩
      · exact ⟨[("name", JValue.str "Sci-Fi")], "Sci-Fi", rfl, rfl⟩
    · intro xs hx x hxx
      injection hx with h
      subst h
      have hx2 : x = JValue.obj [("name", JValue.str "English")] := by simpa using hxx
      subst hx2
      exact ⟨[("name", JValue.str "English")], "English", rfl, rfl⟩
    · intro xs hx x hxx
      injection hx with h
      subst h
      have hx2 : x = JValue.obj [("name", JValue.str "USA")] := by simpa using hxx
      subst hx2
      exact ⟨[("name", JValue.str "USA")], "USA", rfl, rfl⟩
    · intro xs hx x hxx
      injection hx with h
      subst h
      have hx2 : x = JValue.obj [("name", JValue.str "Acme")] := by simpa using hxx
      subst hx2
      exact ⟨[("name", JValue.str "Acme")], "Acme", rfl, rfl⟩
    · intro xs hx
      exact JValue.noConfusion hx
  exact (c7_flattening exRecFull hwfc hwfl).1

theorem getCastE_spec (v : JValue) (h : WFCredits v) :
    getCastE v = .ok (.str (specCast v)) := by
  cases v with
  | obj fs =>
      obtain ⟨hcast, _⟩ := h fs rfl
      cases hc : lookupJ "cast" fs with
      | none => simp only [getCastE, specCast, hc]
      | some w =>
          obtain ⟨xs, rfl, hnamed⟩ := hcast w hc
          have hmap : mapME elemName (xs.take 5) = .ok ((xs.take 5).map elemNameD) :=
            mapME_ok_of_forall _ _ _
              (fun x hx => elemName_spec x (hnamed x (List.take_subset _ _ hx)))
          simp only [getCastE, specCast, hc, hmap, ok_bind, pure_eq_ok]
  | null => rfl
  | num q => rfl
  | str s => rfl
  | bool b => rfl
  | arr xs => rfl
  | posInf => rfl
  | negInf => rfl

theorem getDirectorE_spec (v : JValue) (h : WFCredits v) :
    getDirectorE v = .ok (.str (specDirector v)) := by
  cases v with
  | obj fs =>
      obtain ⟨_, hcrew⟩ := h fs rfl
      cases hc : lookupJ "crew" fs with
      | none => simp only [getDirectorE, specDirector, hc]
      | some w =>
          obtain ⟨xs, rfl, hnamed⟩ := hcrew w hc
          have hmap1 : mapME crewFields xs = .ok (xs.map objFields) :=
            mapME_ok_of_forall _ _ _ (fun x hx => by
              obtain ⟨gs, s, rfl, _⟩ := hnamed x hx
              rfl)
          have hfil : (xs.map objFields).filter
              (fun gs => scalarEq ((lookupJ "job" gs).getD .null) (.str "Director"))
              = (xs.filter isDirector).map objFields := by
            rw [List.filter_map]
            congr 1
            apply List.filter_congr
            intro x _
            cases x with
            | obj gs => rfl
            | null => rfl
            | num q => rfl
            | str s => rfl
            | bool b => rfl
            | arr ys => rfl
            | posInf => rfl
            | negInf => rfl
          have hmap2 : mapME (fun x => elemName (.obj (objFields x))) (xs.filter isDirector)
              = .ok ((xs.filter isDirector).map elemNameD) :=
            mapME_ok_of_forall _ _ _ (fun x hx => by
              obtain ⟨gs, s, rfl, hn⟩ := hnamed x (List.mem_of_mem_filter hx)
              simp only [objFields, elemName, elemNameD, hn])
          simp only [getDirectorE, specDirector, hc, hmap1, ok_bind, hfil, mapME_map,
            hmap2, pure_eq_ok]
  | null => rfl
  | num q => rfl
  | str s => rfl
  | bool b => rfl
  | arr xs => rfl
  | posInf => rfl
  | negInf => rfl

theorem projectCredits_ok (rs : List Row) (creds : Table)
    (h : projectCredits rs = .ok creds) :
    creds.rows = rs.map (fun r => [("id", cellOf r "id"), ("credits", cellOf r "credits")]) := by
  unfold projectCredits at h
  split at h
  · cases h
    rfl
  · simp at h

theorem mergeLeft_mem (c creds : Table) (r : Row) (hr : r ∈ (mergeLeft c creds).rows) :
    ∃ l ∈ c.rows, ∃ w, r = setCell l "credits" w ∧
      (w = .null ∨ ∃ rr ∈ creds.rows,
        scalarEq (cellOf rr "id") (cellOf l "id") = true ∧ w = cellOf rr "credits") := by
  unfold mergeLeft at hr
  simp only [List.mem_flatten, List.mem_map] at hr
  obtain ⟨block, ⟨l, hl, hblock⟩, hrb⟩ := hr
  subst hblock
  cases hfil : creds.rows.filter
      (fun rr => notnaB (cellOf l "id") && scalarEq (cellOf rr "id") (cellOf l "id")) with
  | nil =>
      rw [hfil] at hrb
      exact ⟨l, hl, .null, List.mem_singleton.mp hrb, Or.inl rfl⟩
  | cons m ms =>
      rw [hfil] at hrb
      obtain ⟨rr, hrr, hre⟩ := List.mem_map.mp hrb
      have hrr2 : rr ∈ creds.rows.filter
          (fun rr => notnaB (cellOf l "id") && scalarEq (cellOf rr "id") (cellOf l "id")) := by
        rw [hfil]; exact hrr
      obtain ⟨hmem, hpred⟩ := List.mem_filter.mp hrr2
      have hpred2 : notnaB (cellOf l "id") = true
          ∧ scalarEq (cellOf rr "id") (cellOf l "id") = true := by simpa using hpred
      exact ⟨l, hl, cellOf rr "credits", hre.symm, Or.inr ⟨rr, hmem, hpred2.2, rfl⟩⟩

theorem mergeLeft_preserve (c creds : Table) (l : Row) (hl : l ∈ c.rows) :
    ∃ w, setCell l "credits" w ∈ (mergeLeft c creds).rows := by
  unfold mergeLeft
  simp only [List.mem_flatten, List.mem_map]
  cases hfil : creds.rows.filter
      (fun rr => notnaB (cellOf l "id") && scalarEq (cellOf rr "id") (cellOf l "id")) with
  | nil =>
      refine ⟨.null, [setCell l "credits" .null], ⟨l, hl, ?_⟩, List.mem_singleton.mpr rfl⟩
      rw [hfil]
  | cons m ms =>
      refine ⟨cellOf m "credits",
        (m :: ms).map (fun rr => setCell l "credits" (cellOf rr "credits")),
        ⟨l, hl, ?_⟩, List.mem_map.mpr ⟨m, List.mem_cons_self _ _, rfl⟩⟩
      rw [hfil]

theorem enrich_ok_struct (clean : Table) (rs : List Row) (t2 : Table)
    (h : enrich clean rs = .ok t2) :
    ∃ c creds rows1,
      ((clean.cols.contains "credits" = true
          ∧ c.rows = clean.rows.map (dropKeyRow "credits"))
        ∨ (clean.cols.contains "credits" = false ∧ c = clean))
      ∧ projectCredits rs = .ok creds
      ∧ mapME (fun r => do
          let v ← getCastE (cellOf r "credits")
          return setCell r "cast" v) (mergeLeft c creds).rows = .ok rows1
      ∧ mapME (fun r => do
          let v ← getDirectorE (cellOf r "credits")
          return setCell r "director" v) rows1 = .ok t2.rows := by
  unfold enrich at h
  by_cases hcc : clean.cols.contains "credits" = true
  · rw [if_pos hcc, dropColumnE, if_pos hcc] at h
    simp only [ok_bind] at h
    cases hp : projectCredits rs with
    | error e => rw [hp] at h; simp only [error_bind] at h; simp at h
    | ok creds =>
        rw [hp] at h
        simp only [ok_bind] at h
        cases h1 : mapME (fun r => do
            let v ← getCastE (cellOf r "credits")
            return setCell r "cast" v)
            (mergeLeft ⟨clean.cols.erase "credits",
              clean.rows.map (fun r => r.filter (fun p => p.1 != "credits"))⟩ creds).rows with
        | error e => rw [h1] at h; simp only [error_bind] at h; simp at h
        | ok rows1 =>
            rw [h1] at h
            simp only [ok_bind] at h
            cases h2 : mapME (fun r => do
                let v ← getDirectorE (cellOf r "credits")
                return setCell r "director" v) rows1 with
            | error e => rw [h2] at h; simp only [error_bind] at h; simp at h
            | ok rows2 =>
                rw [h2] at h
                simp only [ok_bind, pure_eq_ok] at h
                injection h with h3
                subst h3
                exact ⟨_, creds, rows1, Or.inl ⟨hcc, rfl⟩, rfl, h1, h2⟩
  · rw [if_neg hcc] at h
    simp only [ok_bind] at h
    cases hp : projectCredits rs with
    | error e => rw [hp] at h; simp only [error_bind] at h; simp at h
    | ok creds =>
        rw [hp] at h
        simp only [ok_bind] at h
        cases h1 : mapME (fun r => do
            let v ← getCastE (cellOf r "credits")
            return setCell r "cast" v) (mergeLeft clean creds).rows with
        | error e => rw [h1] at h; simp only [error_bind] at h; simp at h
        | ok rows1 =>
            rw [h1] at h
            simp only [ok_bind] at h
            cases h2 : mapME (fun r => do
                let v ← getDirectorE (cellOf r "credits")
                return setCell r "director" v) rows1 with
            | error e => rw [h2] at h; simp only [error_bind] at h; simp at h
            | ok rows2 =>
                rw [h2] at h
                simp only [ok_bind, pure_eq_ok] at h
                injection h with h3
                subst h3
                exact ⟨clean, creds, rows1,
                  Or.inr ⟨by simpa using hcc, rfl⟩, rfl, h1, h2⟩

/-- C9: credit enrichment re-joins the raw records on `id` as a left join:
every output row's `cast` cell is the string of pipe-joined names of the
first five `credits.cast` entries in source order and its `director` cell
is the string of pipe-joined names of every `credits.crew` entry whose
`job` is exactly `"Director"` (both computed by the spec-modelled
`specCast`/`specDirector` from the row's joined `credits` value, so both
are strings, never null); the joined `credits` value is null or comes
from a raw record with a matching `id`; every clean-table row survives
into an output row that agrees with it on every column other than
`credits`, `cast` and `director`; and a missing `credits` yields the
empty string for both. -/
theorem c9_credit_enrichment (clean : Table) (rs : List Row) (t2 : Table)
    (hwf : ∀ raw ∈ rs, WFCredits (cellOf raw "credits"))
    (h : enrich clean rs = .ok t2) :
    (∀ r2 ∈ t2.rows,
        lookupJ "cast" r2 = some (.str (specCast (cellOf r2 "credits")))
        ∧ lookupJ "director" r2 = some (.str (specDirector (cellOf r2 "credits")))
        ∧ (cellOf r2 "credits" = .null
            ∨ ∃ raw ∈ rs, scalarEq (cellOf raw "id") (cellOf r2 "id") = true
                ∧ cellOf r2 "credits" = cellOf raw "credits"))
    ∧ (∀ l ∈ clean.rows, ∃ r2 ∈ t2.rows,
        ∀ c2, c2 ≠ "credits" → c2 ≠ "cast" → c2 ≠ "director" →
          lookupJ c2 r2 = lookupJ c2 l)
    ∧ specCast .null = "" ∧ specDirector .null = "" := by
  obtain ⟨c, creds, rows1, hdrop, hp, h1, h2⟩ := enrich_ok_struct clean rs t2 h
  refine ⟨?_, ?_, rfl, rfl⟩
  · intro r2 hr2
    obtain ⟨r1, hr1, hf2⟩ := mapME_ok_mem_right _ _ _ h2 r2 hr2
    have hf2b : (do
        let v ← getDirectorE (cellOf r1 "credits")
        return setCell r1 "director" v) = Except.ok r2 := hf2
    obtain ⟨rM, hrM, hf1⟩ := mapME_ok_mem_right _ _ _ h1 r1 hr1
    have hf1b : (do
        let v ← getCastE (cellOf rM "credits")
        return setCell rM "cast" v) = Except.ok r1 := hf1
    obtain ⟨l, hl, w, hre, hw⟩ := mergeLeft_mem c creds rM hrM
    have hcredM : cellOf rM "credits" = w := by rw [hre, cellOf_setCell_self]
    have hwok : w = .null ∨ ∃ raw ∈ rs,
        scalarEq (cellOf raw "id") (cellOf l "id") = true
        ∧ w = cellOf raw "credits" := by
      rcases hw with rfl | ⟨rr, hrr, hid, rfl⟩
      · exact Or.inl rfl
      · rw [projectCredits_ok rs creds hp] at hrr
        obtain ⟨raw, hraw, rfl⟩ := List.mem_map.mp hrr
        exact Or.inr ⟨raw, hraw, hid, rfl⟩
    have hcastok : getCastE w = .ok (.str (specCast w)) := by
      rcases hwok with rfl | ⟨raw, hraw, _, rfl⟩
      · rfl
      · exact getCastE_spec _ (hwf raw hraw)
    have hdirok : getDirectorE w = .ok (.str (specDirector w)) := by
      rcases hwok with rfl | ⟨raw, hraw, _, rfl⟩
      · rfl
      · exact getDirectorE_spec _ (hwf raw hraw)
    rw [hcredM, hcastok] at hf1b
    simp only [ok_bind, pure_eq_ok] at hf1b
    injection hf1b with hr1eq
    have hcred1 : cellOf r1 "credits" = w := by
      rw [← hr1eq, cellOf_setCell_ne _ _ _ _ (by decide), hcredM]
    rw [hcred1, hdirok] at hf2b
    simp only [ok_bind, pure_eq_ok] at hf2b
    injection hf2b with hr2eq
    have hcred2 : cellOf r2 "credits" = w := by
      rw [← hr2eq, cellOf_setCell_ne _ _ _ _ (by decide), hcred1]
    have hid2 : cellOf r2 "id" = cellOf l "id" := by
      rw [← hr2eq, cellOf_setCell_ne _ _ _ _ (by decide), ← hr1eq,
        cellOf_setCell_ne _ _ _ _ (by decide), hre,
        cellOf_setCell_ne _ _ _ _ (by decide)]
    refine ⟨?_, ?_, ?_⟩
    · rw [hcred2, ← hr2eq, lookupJ_setCell_ne _ _ _ _ (by decide), ← hr1eq,
        lookupJ_setCell_self]
    · rw [hcred2, ← hr2eq, lookupJ_setCell_self]
    · rw [hcred2, hid2]
      exact hwok
  · intro l hl
    have hl' : ∃ l', l' ∈ c.rows ∧ ∀ c2, c2 ≠ "credits" →
        lookupJ c2 l' = lookupJ c2 l := by
      rcases hdrop with ⟨_, hcrows⟩ | ⟨_, rfl⟩
      · exact ⟨dropKeyRow "credits" l, by rw [hcrows]; exact List.mem_map_of_mem _ hl,
          fun c2 hc2 => lookupJ_dropKey_ne _ _ _ hc2⟩
      · exact ⟨l, hl, fun _ _ => rfl⟩
    obtain ⟨l', hl'mem, hlook⟩ := hl'
    obtain ⟨w, hwmem⟩ := mergeLeft_preserve c creds l' hl'mem
    obtain ⟨r1, hr1, hf1⟩ := mapME_ok_mem_left _ _ _ h1 _ hwmem
    have hf1b : (do
        let v ← getCastE (cellOf (setCell l' "credits" w) "credits")
        return setCell (setCell l' "credits" w) "cast" v) = Except.ok r1 := hf1
    cases hg : getCastE (cellOf (setCell l' "credits" w) "credits") with
    | error e => rw [hg, error_bind] at hf1b; simp at hf1b
    | ok vc =>
        rw [hg] at hf1b
        simp only [ok_bind, pure_eq_ok] at hf1b
        injection hf1b with hf1e
        obtain ⟨r2, hr2, hf2⟩ := mapME_ok_mem_left _ _ _ h2 _ hr1
        have hf2b : (do
            let v ← getDirectorE (cellOf r1 "credits")
            return setCell r1 "director" v) = Except.ok r2 := hf2
        cases hg2 : getDirectorE (cellOf r1 "credits") with
        | error e => rw [hg2, error_bind] at hf2b; simp at hf2b
        | ok vd =>
            rw [hg2] at hf2b
            simp only [ok_bind, pure_eq_ok] at hf2b
            injection hf2b with hf2e
            refine ⟨r2, hr2, ?_⟩
            intro c2 hc2c hc2a hc2d
            rw [← hf2e, lookupJ_setCell_ne _ _ _ _ hc2d, ← hf1e,
              lookupJ_setCell_ne _ _ _ _ hc2a, lookupJ_setCell_ne _ _ _ _ hc2c,
              hlook c2 hc2c]

/-- The C9 theorem applied to the concrete pipeline output `tFull` and the
raw record list `[exRecFull]`. -/
theorem c9_credit_enrichment_witness :
    (∀ r2 ∈ tEnr.rows,
        lookupJ "cast" r2 = some (.str (specCast (cellOf r2 "credits")))
        ∧ lookupJ "director" r2 = some (.str (specDirector (cellOf r2 "credits")))
        ∧ (cellOf r2 "credits" = .null
            ∨ ∃ raw ∈ [exRecFull], scalarEq (cellOf raw "id") (cellOf r2 "id") = true
                ∧ cellOf r2 "credits" = cellOf raw "credits"))
    ∧ (∀ l ∈ tFull.rows, ∃ r2 ∈ tEnr.rows,
        ∀ c2, c2 ≠ "credits" → c2 ≠ "cast" → c2 ≠ "director" →
          lookupJ c2 r2 = lookupJ c2 l)
    ∧ specCast .null = "" ∧ specDirector .null = "" := by
  have hwf : ∀ raw ∈ [exRecFull], WFCredits (cellOf raw "credits") := by
    intro raw hraw
    have hre : raw = exRecFull := List.mem_singleton.mp hraw
    subst hre
    intro fs hf
    injection hf with hfe
    subst hfe
    constructor
    · intro w hw
      injection hw with hwe
      subst hwe
      refine ⟨_, rfl, ?_⟩
      intro x hx
      have hx2 : x = JValue.obj [("name", JValue.str "A1")]
          ∨ x = JValue.obj [("name", JValue.str "A2")]
          ∨ x = JValue.obj [("name", JValue.str "A3")]
          ∨ x = JValue.obj [("name", JValue.str "A4")]
          ∨ x = JValue.obj [("name", JValue.str "A5")]
          ∨ x = JValue.obj [("name", JValue.str "A6")] := by simpa using hx
      rcases hx2 with rfl | rfl | rfl | rfl | rfl | rfl
      · exact ⟨_, "A1", rfl, rfl⟩
      · exact ⟨_, "A2", rfl, rfl⟩
      · exact ⟨_, "A3", rfl, rfl⟩
      · exact ⟨_, "A4", rfl, rfl⟩
      · exact ⟨_, "A5", rfl, rfl⟩
      · exact ⟨_, "A6", rfl, rfl⟩
    · intro w hw
      injection hw with hwe
      subst hwe
      refine ⟨_, rfl, ?_⟩
      intro x hx
      have hx2 : x = JValue.obj [("name", JValue.str "D1"), ("job", JValue.str "Director")]
          ∨ x = JValue.obj [("name", JValue.str "W1"), ("job", JValue.str "Writer")] := by
        simpa using hx
      rcases hx2 with rfl | rfl
      · exact ⟨_, "D1", rfl, rfl⟩
      · exact ⟨_, "W1", rfl, rfl⟩
  exact c9_credit_enrichment tFull [exRecFull] tEnr hwf rfl

/-- C10: for every input whose raw `credits` cells are keyed structures
(not lists, the shape §3 gives them), the Transformer's output still has a
`credits` column — it is in the fixed target schema — but every row's
`credits` cell is null: the flattening loop treats `credits` like the
list-valued fields, and a non-list cell flattens to null, so the Clean
Table never carries usable credit data. -/
theorem c10_credits_column_null (rs : List Row) (t : Table)
    (hraw : ∀ rec ∈ rs, ∀ xs, cellOf rec "credits" ≠ .arr xs)
    (h : transform rs = .ok t) :
    t.cols.contains "credits" = true
    ∧ ∀ r ∈ t.rows, lookupJ "credits" r = some .null := by
  obtain ⟨u, hu, hnum, hext, hprov⟩ := transform_row_provenance rs t h
  constructor
  · unfold transform at h
    cases hb : beforeReindex rs with
    | error e => rw [hb, error_bind] at h; simp at h
    | ok w =>
        rw [hb, ok_bind] at h
        obtain ⟨_, r2, _⟩ := reindexStage_ok w t h
        rw [r2]
        decide
  · intro r hr
    obtain ⟨rec, hrec, rq, hconv, hreq⟩ := hprov r hr
    obtain ⟨cv, hcv, hl⟩ := rowConvert_credits rec rq hconv
    have hcvnull : cv = .null := by
      cases hcell : cellOf rec "credits" with
      | arr xs => exact absurd hcell (hraw rec hrec xs)
      | null => rw [hcell] at hcv; injection hcv with h2; exact h2.symm
      | num q => rw [hcell] at hcv; injection hcv with h2; exact h2.symm
      | str s => rw [hcell] at hcv; injection hcv with h2; exact h2.symm
      | bool b => rw [hcell] at hcv; injection hcv with h2; exact h2.symm
      | obj fs => rw [hcell] at hcv; injection hcv with h2; exact h2.symm
      | posInf => rw [hcell] at hcv; injection hcv with h2; exact h2.symm
      | negInf => rw [hcell] at hcv; injection hcv with h2; exact h2.symm
    rw [hcvnull] at hl
    rw [hreq]
    exact final_fixed_col u.cols rq "credits" (by decide) (by decide) (by decide)
      (by decide) (by decide) (by decide) (hext "credits" (by decide)) _ hl

/-- The C10 theorem applied to the concrete record `exRecFull`, whose
`credits` cell is the keyed structure `exCredits`. -/
theorem c10_credits_column_null_witness :
    tFull.cols.contains "credits" = true
    ∧ ∀ r ∈ tFull.rows, lookupJ "credits" r = some .null := by
  have hraw : ∀ rec ∈ [exRecFull], ∀ xs, cellOf rec "credits" ≠ .arr xs := by
    intro rec hrec xs hc
    have hre := List.mem_singleton.mp hrec
    subst hre
    exact JValue.noConfusion hc
  exact c10_credits_column_null [exRecFull] tFull hraw rfl

end TMDB
